import Mathlib

/-!
A verification development for the topology-superimposition engine
(`ties/topology_superimposer.py`).

Modelling conventions (shallow embedding):

* Atoms are referenced by their index into the atom list of their molecule.
  A `Ctx` holds the two molecules (left = disappearing ligand, right =
  appearing ligand).  Python object identity of `AtomNode`s becomes index
  identity; atoms of the two molecules live in separate index spaces, which
  mirrors the fact that a left `AtomNode` object is never identical to a
  right one.
* Python `float` charges and coordinates are modelled as exact rationals.
  The only irrational operation in the source, the square root inside
  `rmsd`, is modelled by returning the mean of squared deviations
  (`rmsd_sq`); the square root is strictly monotone on nonnegative numbers,
  so every comparison of rmsd values in the source is faithfully reproduced
  by comparing `rmsd_sq` values.
* Python `list`s are Lean lists; Python `set`s and `dict`s are
  insertion-ordered duplicate-free lists and association lists.
* Python exceptions (raise / assert / KeyError / ValueError) are modelled
  with `Except String`; returning `None` from the overlay kernel is
  `Option.none` inside the `Except`.
* Unbounded Python loops are given explicit fuel; theorems show the fuel
  bounds used are sufficient where termination is claimed.
-/

/- The Batteries rational arithmetic definitions are `@[irreducible]`,
which blocks kernel evaluation in `decide`; re-marking them semireducible
lets concrete runs of the model be checked by evaluation. -/
attribute [local semireducible] Rat.mul Rat.add Rat.inv Rat.sub Rat.ofScientific

/-- ASCII upper-casing of a character (Python `str.upper` on the
identifier-like strings the engine handles). -/
def charUpper (c : Char) : Char :=
  if 97 ≤ c.toNat ∧ c.toNat ≤ 122 then Char.ofNat (c.toNat - 32) else c

/-- `str.upper`. -/
def strUpper (s : String) : String := String.mk (s.data.map charUpper)

/-- Lexicographic strict order on code points (Python `str.__lt__`). -/
def charListLt : List Char → List Char → Bool
  | [], [] => false
  | [], _ :: _ => true
  | _ :: _, [] => false
  | a :: as, b :: bs =>
    if a.toNat < b.toNat then true
    else if b.toNat < a.toNat then false
    else charListLt as bs

/-- `a <= b` on strings (total order: `¬ (b < a)`). -/
def strLeB (a b : String) : Bool := ! charListLt b.data a.data

/-- The character lists `a` begin the character list `b`. -/
def charListBegins : List Char → List Char → Bool
  | [], _ => true
  | _ :: _, [] => false
  | a :: as, b :: bs => a == b && charListBegins as bs

/-- `s.startswith(p)`. -/
def strBegins (s p : String) : Bool :=
  charListBegins p.data s.data

/-- Duplicate removal keeping the first occurrence (Python `dict`/`set`
insertion order). -/
def dedupF {α : Type} [DecidableEq α] (l : List α) : List α :=
  l.foldl (fun acc a => if a ∈ acc then acc else acc ++ [a]) []

/-- Results of modelled computations are compared by evaluation. -/
instance {ε α : Type} [DecidableEq ε] [DecidableEq α] : DecidableEq (Except ε α) := fun x y =>
  match x, y with
  | .ok a, .ok b =>
    if h : a = b then isTrue (by rw [h]) else isFalse (fun hc => by cases hc; exact h rfl)
  | .error a, .error b =>
    if h : a = b then isTrue (by rw [h]) else isFalse (fun hc => by cases hc; exact h rfl)
  | .ok _, .error _ => isFalse (fun hc => by cases hc)
  | .error _, .ok _ => isFalse (fun hc => by cases hc)

/-- The fixed force-field-type → element table (`element_from_type`),
reproduced from the source. -/
def element_from_type : List (String × String) :=
  [("C", "C"), ("CA", "C"), ("CB", "C"), ("C3", "C"), ("CX", "C"), ("C1", "C"),
   ("C2", "C"), ("CC", "C"), ("CD", "C"), ("CE", "C"), ("CF", "C"), ("CP", "C"),
   ("CQ", "C"), ("CU", "C"), ("CV", "C"), ("CY", "C"), ("CZ", "C"), ("CG", "C"),
   ("CS", "C"), ("CH", "C"),
   ("H", "H"), ("HA", "H"), ("HN", "H"), ("H4", "H"), ("HC", "H"), ("H1", "H"),
   ("HX", "H"), ("HO", "H"), ("HS", "H"), ("HP", "H"), ("H2", "H"), ("H3", "H"),
   ("H5", "H"),
   ("P2", "P"), ("P3", "P"), ("P4", "P"), ("P5", "P"), ("PB", "P"), ("PC", "P"),
   ("PD", "P"), ("PE", "P"), ("PF", "P"), ("PX", "P"), ("PY", "P"),
   ("O", "O"), ("OH", "O"), ("OS", "O"), ("OP", "O"), ("OQ", "O"),
   ("N", "N"), ("NB", "N"), ("NS", "N"), ("N1", "N"), ("N2", "N"), ("N3", "N"),
   ("N4", "N"), ("NA", "N"), ("NH", "N"), ("NO", "N"), ("NC", "N"), ("ND", "N"),
   ("NU", "N"), ("NE", "N"), ("NF", "N"), ("NT", "N"), ("NX", "N"), ("NY", "N"),
   ("NZ", "N"), ("N+", "N"), ("NV", "N"), ("N7", "N"), ("N8", "N"), ("N9", "N"),
   ("NI", "N"), ("NJ", "N"), ("NK", "N"), ("NL", "N"), ("NM", "N"), ("NN", "N"),
   ("NP", "N"), ("NQ", "N"), ("N5", "N"), ("N6", "N"),
   ("CL", "CL"), ("F", "F"), ("BR", "BR"), ("B", "BR"), ("I", "I"),
   ("S", "S"), ("S2", "S"), ("SH", "S"), ("SS", "S"), ("S4", "S"),
   ("S6", "S"), ("SX", "S"), ("SY", "S"), ("SP", "S"), ("SQ", "S")]

/-- Association-list lookup (Python `dict` access, first binding wins). -/
def assocFind? {α β : Type} [DecidableEq α] (l : List (α × β)) (k : α) : Option β :=
  match l.find? (fun kv => kv.1 = k) with
  | some kv => some kv.2
  | none => none

/-- An atom (`AtomNode`): the chemistry attributes the engine reads, with
bonds as a list of (partner index within the same molecule, bond type). -/
structure AtomData where
  name : String
  type' : String
  charge : ℚ
  element : String
  pos : ℚ × ℚ × ℚ
  use_general_type : Bool
  bonds : List (Nat × String)
deriving DecidableEq, Repr

/-- `AtomNode.__init__`: uppercases the name and the type and derives the
element from the type table; an unknown type is a fatal error (KeyError). -/
def mkAtomNode (name type' : String) (charge : ℚ) (pos : ℚ × ℚ × ℚ)
    (ugt : Bool) (bonds : List (Nat × String)) : Except String AtomData :=
  match assocFind? element_from_type (strUpper type') with
  | some el => .ok { name := strUpper name, type' := strUpper type', charge := charge,
                     element := el, pos := pos, use_general_type := ugt, bonds := bonds }
  | none => .error "KeyError: unknown atom type"

/-- The two molecules; every atom reference below is an index into one of
these lists.  The default atom is only used for out-of-range indices, which
well-formed inputs never produce. -/
structure Ctx where
  left : List AtomData
  right : List AtomData
deriving DecidableEq, Repr

def defaultAtom : AtomData :=
  { name := "", type' := "", charge := 0, element := "", pos := (0, 0, 0),
    use_general_type := true, bonds := [] }

def Ctx.lAtom (ctx : Ctx) (i : Nat) : AtomData := ctx.left.getD i defaultAtom

def Ctx.rAtom (ctx : Ctx) (i : Nat) : AtomData := ctx.right.getD i defaultAtom

/-- `AtomNode.same_element`: per-atom flag selects element-level or
type-level comparison. -/
def same_element (a b : AtomData) : Bool :=
  if a.use_general_type then a.element == b.element else a.type' == strUpper b.type'

/-- `AtomNode.same_type`. -/
def same_type (a b : AtomData) : Bool :=
  a.type' == strUpper b.type'

/-- `np.isclose(a, b, atol)` with numpy's default relative tolerance
`rtol = 1e-5`: `|a - b| <= atol + rtol * |b|`. -/
def npIsClose (a b atol : ℚ) : Bool :=
  |a - b| ≤ atol + (1 / 100000) * |b|

/-- `AtomNode.eq(atom, atol)`: same type and charge close in the
`np.isclose` sense. -/
def AtomData.eqA (a b : AtomData) (atol : ℚ) : Bool :=
  a.type' == b.type' && npIsClose a.charge b.charge atol

/-! ## List utilities modelling Python containers -/

/-- Python `list.remove` / `set.remove`: drop the first element equal to
`a`; error (`ValueError` / `KeyError`) if absent. -/
def pyRemove {α : Type} [DecidableEq α] (l : List α) (a : α) : Except String (List α) :=
  match l with
  | [] => .error "ValueError: x not in list"
  | b :: bs => if b = a then .ok bs else do
      let r ← pyRemove bs a
      .ok (b :: r)

/-- Python `set.add` on an insertion-ordered duplicate-free list. -/
def setAdd {α : Type} [DecidableEq α] (l : List α) (a : α) : List α :=
  if a ∈ l then l else l ++ [a]

/-- Python `dict.__setitem__`: replace the binding in place if the key is
present, otherwise append it. -/
def assocSet {α β : Type} [DecidableEq α] (l : List (α × β)) (k : α) (v : β) :
    List (α × β) :=
  match l with
  | [] => [(k, v)]
  | (k', v') :: rest =>
    if k' = k then (k, v) :: rest else (k', v') :: assocSet rest k v

/-- One step of a stable insertion sort: insert after all elements that
compare `le` to `a` (matching the stability of Python's `list.sort`). -/
def insertSorted {α : Type} (le : α → α → Bool) (a : α) : List α → List α
  | [] => [a]
  | b :: bs => if le b a then b :: insertSorted le a bs else a :: b :: bs

/-- Stable sort (models Python `list.sort` / `sorted` with a key). -/
def sortByKey {α : Type} (le : α → α → Bool) (l : List α) : List α :=
  l.foldl (fun acc a => insertSorted le a acc) []

theorem insertSorted_mem {α : Type} (le : α → α → Bool) (a x : α) (l : List α) :
    x ∈ insertSorted le a l ↔ x = a ∨ x ∈ l := by
  induction l with
  | nil => simp [insertSorted]
  | cons b bs ih =>
    by_cases hb : le b a = true
    · rw [insertSorted, if_pos hb]
      simp only [List.mem_cons, ih]
      tauto
    · rw [insertSorted, if_neg hb]
      simp only [List.mem_cons]

theorem insertSorted_pairwise {α : Type} (le : α → α → Bool)
    (htot : ∀ a b, le a b = true ∨ le b a = true)
    (htrans : ∀ a b c, le a b = true → le b c = true → le a c = true)
    (a : α) (l : List α) (h : l.Pairwise (fun x y => le x y = true)) :
    (insertSorted le a l).Pairwise (fun x y => le x y = true) := by
  induction l with
  | nil => simp [insertSorted]
  | cons b bs ih =>
    rcases List.pairwise_cons.1 h with ⟨hb, hbs⟩
    by_cases hle : le b a = true
    · rw [insertSorted, if_pos hle]
      refine List.pairwise_cons.2 ⟨?_, ih hbs⟩
      intro x hx
      rcases (insertSorted_mem le a x bs).1 hx with rfl | hx'
      · exact hle
      · exact hb x hx'
    · rw [insertSorted, if_neg hle]
      have hba : le a b = true := by
        rcases htot a b with h1 | h1
        · exact h1
        · exact absurd h1 hle
      refine List.pairwise_cons.2 ⟨?_, h⟩
      intro x hx
      rcases List.mem_cons.1 hx with rfl | hx'
      · exact hba
      · exact htrans a b x hba (hb x hx')

theorem sortByKey_pairwise {α : Type} (le : α → α → Bool)
    (htot : ∀ a b, le a b = true ∨ le b a = true)
    (htrans : ∀ a b c, le a b = true → le b c = true → le a c = true)
    (l : List α) : (sortByKey le l).Pairwise (fun x y => le x y = true) := by
  have key : ∀ (l : List α) (acc : List α),
      acc.Pairwise (fun x y => le x y = true) →
      (l.foldl (fun acc a => insertSorted le a acc) acc).Pairwise
        (fun x y => le x y = true) := by
    intro l
    induction l with
    | nil => intro acc h; simpa using h
    | cons a as ih =>
      intro acc h
      exact ih _ (insertSorted_pairwise le htot htrans a acc h)
  exact key l [] (by simp)

/-- Members of a `pyRemove` result were members before. -/
theorem pyRemove_subset {α : Type} [DecidableEq α] {l r : List α} {a x : α}
    (h : pyRemove l a = .ok r) (hx : x ∈ r) : x ∈ l := by
  induction l generalizing r with
  | nil => exact absurd h (by rw [show pyRemove ([] : List α) a = .error "ValueError: x not in list" from rfl]; intro hc; cases hc)
  | cons b bs ih =>
    rw [pyRemove] at h
    by_cases hb : b = a
    · rw [if_pos hb] at h
      cases h
      exact List.mem_cons_of_mem _ hx
    · rw [if_neg hb] at h
      cases hrec : pyRemove bs a with
      | error e => rw [hrec] at h; cases h
      | ok rest =>
        rw [hrec] at h
        have h2 := Except.ok.inj h
        subst h2
        rcases List.mem_cons.1 hx with rfl | hx'
        · exact List.mem_cons_self _ _
        · exact List.mem_cons_of_mem _ (ih hrec hx')

/-- `pyRemove` yields a sublist, so order-invariants survive it. -/
theorem pyRemove_sublist {α : Type} [DecidableEq α] {l r : List α} {a : α}
    (h : pyRemove l a = .ok r) : r.Sublist l := by
  induction l generalizing r with
  | nil => exact absurd h (by rw [show pyRemove ([] : List α) a = .error "ValueError: x not in list" from rfl]; intro hc; cases hc)
  | cons b bs ih =>
    rw [pyRemove] at h
    by_cases hb : b = a
    · rw [if_pos hb] at h
      cases h
      exact List.sublist_cons_self _ _
    · rw [if_neg hb] at h
      cases hrec : pyRemove bs a with
      | error e => rw [hrec] at h; cases h
      | ok rest =>
        rw [hrec] at h
        have h2 := Except.ok.inj h
        subst h2
        exact List.Sublist.cons₂ _ (ih hrec)

/-- Removing a present element shortens the list by exactly one. -/
theorem pyRemove_length {α : Type} [DecidableEq α] {l r : List α} {a : α}
    (h : pyRemove l a = .ok r) : r.length + 1 = l.length := by
  induction l generalizing r with
  | nil => exact absurd h (by rw [show pyRemove ([] : List α) a = .error "ValueError: x not in list" from rfl]; intro hc; cases hc)
  | cons b bs ih =>
    rw [pyRemove] at h
    by_cases hb : b = a
    · rw [if_pos hb] at h
      cases h
      simp
    · rw [if_neg hb] at h
      cases hrec : pyRemove bs a with
      | error e => rw [hrec] at h; cases h
      | ok rest =>
        rw [hrec] at h
        have h2 := Except.ok.inj h
        subst h2
        simp [ih hrec]

/-- On a list that contains `a`, `pyRemove` succeeds. -/
theorem pyRemove_isOk {α : Type} [DecidableEq α] {l : List α} {a : α}
    (h : a ∈ l) : ∃ r, pyRemove l a = .ok r := by
  induction l with
  | nil => cases h
  | cons b bs ih =>
    by_cases hb : b = a
    · exact ⟨bs, by rw [pyRemove, if_pos hb]⟩
    · rcases List.mem_cons.1 h with rfl | h'
      · exact absurd rfl hb
      · rcases ih h' with ⟨r, hr⟩
        exact ⟨b :: r, by rw [pyRemove, if_neg hb, hr]; rfl⟩

/-! ## The SuperimposedTopology data structure -/

/-- A matched pair: (left-atom index, right-atom index). -/
abbrev Pair := Nat × Nat

/-- The bond-type annotation stored with an induced edge; `none` components
model the Python `None` passed for seed pairs. -/
abbrev BTPair := Option String × Option String

/-- An entry of `nodes_added_log`. -/
inductive LogEntry where
  | added (p : Pair)
  | removed (p : Pair)
  | mergedWith (ps : List Pair)
deriving DecidableEq, Repr

/-- `SuperimposedTopology`.  The single Python `nodes` set is split into the
left and the right node set (`AtomNode` objects of the two molecules are
never identical, so the split loses nothing).  `mirrors` and
`alternative_mappings` store the matched-pair lists of the absorbed STs,
the only component the code reads from them. -/
structure SupTop where
  matched_pairs : List Pair := []
  nodesL : List Nat := []
  nodesR : List Nat := []
  matched_pairs_bonds : List (Pair × List (Pair × BTPair)) := []
  nodes_added_log : List LogEntry := []
  mirrors : List (List Pair) := []
  alternative_mappings : List (List Pair) := []
  removed_pairs_with_charge_difference : List (Pair × ℚ) := []
  removed_because_disjointed_cc : List Pair := []
  removed_due_to_net_charge : List (Pair × ℚ) := []
  removed_because_unmatched_rings : List Pair := []
  removed_because_diff_bonds : List Pair := []
  nonoverlapping_l_cycles : List (List Nat) := []
  nonoverlapping_r_cycles : List (List Nat) := []
  internal_ids_l : List (Nat × Nat) := []
  internal_ids_r : List (Nat × Nat) := []
  internal_ids_pairs : List (Pair × Nat) := []
  unique_atom_count : Nat := 0
  ignore_bond_types : Bool := true
deriving DecidableEq, Repr

/-- `len(suptop)` = number of matched pairs. -/
def SupTop.size (st : SupTop) : Nat := st.matched_pairs.length

/-- `contains_node` for an atom of the left molecule. -/
def SupTop.contains_node_l (st : SupTop) (i : Nat) : Bool := st.nodesL.contains i

/-- `contains_node` for an atom of the right molecule. -/
def SupTop.contains_node_r (st : SupTop) (i : Nat) : Bool := st.nodesR.contains i

/-- `contains_any_node([n1, n2])` as called by the overlay kernel, where
`n1` is a left atom and `n2` a right atom. -/
def SupTop.contains_any_node (st : SupTop) (n1 n2 : Nat) : Bool :=
  st.contains_node_l n1 || st.contains_node_r n2

/-- `contains(node_pair)`. -/
def SupTop.containsP (st : SupTop) (p : Pair) : Bool := st.matched_pairs.contains p

/-- `get_pair_with_atom` for a left atom (Python checks object identity on
both positions; a left atom can only ever match the left position). -/
def SupTop.get_pair_with_latom (st : SupTop) (i : Nat) : Option Pair :=
  st.matched_pairs.find? (fun p => p.1 == i)

/-- `get_pair_with_atom` for a right atom. -/
def SupTop.get_pair_with_ratom (st : SupTop) (i : Nat) : Option Pair :=
  st.matched_pairs.find? (fun p => p.2 == i)

/-- `get_net_charge`: Σ (l.charge − r.charge) over the matched pairs. -/
def SupTop.get_net_charge (ctx : Ctx) (st : SupTop) : ℚ :=
  (st.matched_pairs.map
    (fun p => (ctx.lAtom p.1).charge - (ctx.rAtom p.2).charge)).sum

/-- `get_worst_match_charge`: `max` of `|Δq|` over the matched pairs;
Python's `max` on an empty sequence raises `ValueError`. -/
def SupTop.get_worst_match_charge (ctx : Ctx) (st : SupTop) : Except String ℚ :=
  match st.matched_pairs.map
      (fun p => |(ctx.lAtom p.1).charge - (ctx.rAtom p.2).charge|) with
  | [] => .error "ValueError: max() arg is an empty sequence"
  | q :: qs => .ok (qs.foldl max q)

/-- The sort key used by `matched_pairs.sort(key=lambda pair: pair[0].name)`. -/
def pairNameLe (ctx : Ctx) (p q : Pair) : Bool :=
  strLeB (ctx.lAtom p.1).name (ctx.lAtom q.1).name

/-- `add_node_pair`: asserts that the pair and its atoms are fresh, appends,
re-sorts by the left atom's name, updates the node set, logs, and creates
the pair's empty bond set. -/
def SupTop.add_node_pair (ctx : Ctx) (st : SupTop) (p : Pair) :
    Except String SupTop := do
  if st.matched_pairs.contains p then
    throw "AssertionError: already added"
  if st.nodesL.contains p.1 || st.nodesR.contains p.2 then
    throw "AssertionError: node already used"
  let pairs := sortByKey (pairNameLe ctx) (st.matched_pairs ++ [p])
  let nodesL := setAdd st.nodesL p.1
  let nodesR := setAdd st.nodesR p.2
  if pairs.length * 2 ≠ nodesL.length + nodesR.length then
    throw "AssertionError: node count mismatch"
  .ok { st with
        matched_pairs := pairs,
        nodesL := nodesL,
        nodesR := nodesR,
        nodes_added_log := st.nodes_added_log ++ [LogEntry.added p],
        matched_pairs_bonds := assocSet st.matched_pairs_bonds p [] }

/-- `link_pairs(from_pair, pairs)`: record the induced edges in both
directions; asserts both endpoints already have a bond set. -/
def SupTop.link_pairs (st : SupTop) (from_pair : Pair)
    (pairs : List (Pair × BTPair)) : Except String SupTop := do
  if (assocFind? st.matched_pairs_bonds from_pair).isNone then
    throw "AssertionError: from_pair has no bond set"
  let mut bonds := st.matched_pairs_bonds
  for pb in pairs do
    match assocFind? bonds pb.1 with
    | none => throw "AssertionError: not found pair"
    | some pairSet =>
      match assocFind? bonds from_pair with
      | none => throw "AssertionError: from_pair has no bond set"
      | some fromSet =>
        bonds := assocSet bonds from_pair (setAdd fromSet (pb.1, pb.2))
        bonds := assocSet bonds pb.1 (setAdd pairSet (from_pair, pb.2))
  .ok { st with matched_pairs_bonds := bonds }

/-- `link_with_parent(pair, parent, bond_type)`. -/
def SupTop.link_with_parent (st : SupTop) (p parent : Pair) (bt : BTPair) :
    Except String SupTop := do
  match assocFind? st.matched_pairs_bonds p, assocFind? st.matched_pairs_bonds parent with
  | some pSet, some parentSet =>
    let bonds := assocSet st.matched_pairs_bonds parent (setAdd parentSet (p, bt))
    match assocFind? bonds p with
    | some pSet2 =>
      let _ := pSet
      .ok { st with matched_pairs_bonds := assocSet bonds p (setAdd pSet2 (parent, bt)) }
    | none => throw "AssertionError: not found pair"
  | _, _ => throw "AssertionError: not found pair"

/-- `remove_node_pair`: remove from `matched_pairs` and the node set, log,
delete the pair's bond set and the back-references of its neighbours
(`set.remove` raises `KeyError` when a back-reference is missing). -/
def SupTop.remove_node_pair (st : SupTop) (p : Pair) : Except String SupTop := do
  let pairs ← pyRemove st.matched_pairs p
  let nodesL ← pyRemove st.nodesL p.1
  let nodesR ← pyRemove st.nodesR p.2
  match assocFind? st.matched_pairs_bonds p with
  | none => throw "KeyError: pair has no bond set"
  | some bound_pairs =>
    let bonds0 := (st.matched_pairs_bonds.filter (fun kv => ¬ kv.1 = p))
    let mut bonds := bonds0
    for bp in bound_pairs do
      match assocFind? bonds bp.1 with
      | none => throw "KeyError: bound pair has no bond set"
      | some neighSet =>
        let neighSet' ← pyRemove neighSet (p, bp.2)
        bonds := assocSet bonds bp.1 neighSet'
    .ok { st with
          matched_pairs := pairs,
          nodesL := nodesL,
          nodesR := nodesR,
          nodes_added_log := st.nodes_added_log ++ [LogEntry.removed p],
          matched_pairs_bonds := bonds }

/-- `remove_attached_hydrogens(node_pair)`: over a snapshot of the pair's
bond set, remove every adjacent pair whose left atom's *name* starts with
`'H'`; returns the removed pairs.  If the pair has no bond set the method
returns `[]` without touching anything. -/
def removeHydrogensLoop (ctx : Ctx) :
    List (Pair × BTPair) → SupTop → List Pair → Except String (SupTop × List Pair)
  | [], cur, removed => .ok (cur, removed)
  | pb :: rest, cur, removed =>
    if ¬ strBegins (ctx.lAtom pb.1.1).name "H" then
      removeHydrogensLoop ctx rest cur removed
    else do
      let cur' ← cur.remove_node_pair pb.1
      removeHydrogensLoop ctx rest cur' (removed ++ [pb.1])

def SupTop.remove_attached_hydrogens (ctx : Ctx) (st : SupTop) (p : Pair) :
    Except String (SupTop × List Pair) :=
  match assocFind? st.matched_pairs_bonds p with
  | none => .ok (st, [])
  | some attached_pairs => removeHydrogensLoop ctx attached_pairs st []

/-- `remove_worst_charge_match`: find the first pair with the largest
`|Δq|`; if that largest difference is `0` do nothing and return `0`,
otherwise remove the pair, record it in `_removed_due_to_net_charge` and
return the difference. -/
def SupTop.remove_worst_charge_match (ctx : Ctx) (st : SupTop) :
    Except String (SupTop × ℚ) := do
  let largest ← st.get_worst_match_charge ctx
  if largest = 0 then
    .ok (st, 0)
  else
    match st.matched_pairs.find?
        (fun p => |(ctx.lAtom p.1).charge - (ctx.rAtom p.2).charge| == largest) with
    | none => throw "IndexError: list index out of range"
    | some worst => do
      let st' ← st.remove_node_pair worst
      .ok ({ st' with
             removed_due_to_net_charge :=
               st'.removed_due_to_net_charge ++ [(worst, largest)] }, |largest|)

/-- `refine_against_charges(atol, remove_dangling_h)`: walk a reversed
snapshot of `matched_pairs`; every pair failing `AtomNode.eq` (same type
and `np.isclose` on charges) is removed and recorded with `|Δq|`; the
record list is finally sorted by `|Δq|` descending. -/
def refineLoop (ctx : Ctx) (atol : ℚ) (remove_dangling_h : Bool) :
    List Pair → SupTop → Except String SupTop
  | [], cur => .ok cur
  | p :: rest, cur =>
    if (ctx.lAtom p.1).eqA (ctx.rAtom p.2) atol then
      refineLoop ctx atol remove_dangling_h rest cur
    else do
      let cur ← if remove_dangling_h then do
          let res ← cur.remove_attached_hydrogens ctx p
          pure res.1
        else pure cur
      let cur ← cur.remove_node_pair p
      refineLoop ctx atol remove_dangling_h rest
        { cur with
          removed_pairs_with_charge_difference :=
            cur.removed_pairs_with_charge_difference ++
              [(p, |(ctx.rAtom p.2).charge - (ctx.lAtom p.1).charge|)] }

def SupTop.refine_against_charges (ctx : Ctx) (st : SupTop) (atol : ℚ)
    (remove_dangling_h : Bool := false) : Except String SupTop := do
  let cur ← refineLoop ctx atol remove_dangling_h st.matched_pairs.reverse st
  .ok { cur with
        removed_pairs_with_charge_difference :=
          sortByKey (fun x y => decide (y.2 ≤ x.2))
            cur.removed_pairs_with_charge_difference }

/-- `matched_atom_types_are_the_same`: walking a reversed snapshot, remove
every pair whose exact force-field types differ. -/
def SupTop.matched_atom_types_are_the_same (ctx : Ctx) (st : SupTop) :
    Except String SupTop := do
  let mut cur := st
  for p in st.matched_pairs.reverse do
    if ¬ same_type (ctx.lAtom p.1) (ctx.rAtom p.2) then
      cur ← cur.remove_node_pair p
  .ok cur

/-- `SuperimposedTopology.eq`: same size and every pair contained. -/
def SupTop.eqST (st other : SupTop) : Bool :=
  st.size == other.size &&
    st.matched_pairs.all (fun p => other.containsP p)

/-- `contains_all`. -/
def SupTop.contains_all (st other : SupTop) : Bool :=
  other.matched_pairs.all (fun p => st.containsP p)

/-- `contains_same_atoms_symmetric`: the two node sets coincide. -/
def SupTop.contains_same_atoms_symmetric (st other : SupTop) : Bool :=
  st.nodesL.all (fun i => other.nodesL.contains i) &&
  other.nodesL.all (fun i => st.nodesL.contains i) &&
  st.nodesR.all (fun i => other.nodesR.contains i) &&
  other.nodesR.all (fun i => st.nodesR.contains i)

/-- `is_mirror_of`: same cardinality and the same node sets. -/
def SupTop.is_mirror_of (st other : SupTop) : Bool :=
  st.size == other.size && st.contains_same_atoms_symmetric other

/-- `is_subgraph_of`: strictly smaller, and the other ST contains every
pair of this ST or of one of its mirrors. -/
def SupTop.is_subgraph_of (st other : SupTop) : Bool :=
  if st.size ≥ other.size then false
  else if other.contains_all st then true
  else st.mirrors.any (fun m => m.all (fun p => other.containsP p))

/-- `add_mirror_suptop`: asserts equal size; if an equal mirror is already
stored, do nothing; otherwise absorb the other's mirrors and append its
matched-pair list.  (Mirrors are stored as matched-pair lists.) -/
def SupTop.add_mirror_suptop (st : SupTop) (other : SupTop) :
    Except String SupTop := do
  if st.size ≠ other.size then
    throw "AssertionError: mirror of a different size"
  if st.mirrors.any (fun m =>
      other.size == m.length && other.matched_pairs.all (fun p => m.contains p)) then
    .ok st
  else
    .ok { st with mirrors := st.mirrors ++ other.mirrors ++ [other.matched_pairs] }

/-- `add_alternative_mapping`. -/
def SupTop.add_alternative_mapping (st : SupTop) (other : SupTop) : SupTop :=
  { st with alternative_mappings := st.alternative_mappings ++ [other.matched_pairs] }

/-- `contains_any_node_from(other)`: the node sets intersect. -/
def SupTop.contains_any_node_from (st other : SupTop) : Bool :=
  st.nodesL.any (fun i => other.nodesL.contains i) ||
  st.nodesR.any (fun i => other.nodesR.contains i)

/-- `count_common_node_pairs`. -/
def SupTop.count_common_node_pairs (st other : SupTop) : Nat :=
  ((dedupF st.matched_pairs).filter (fun p => other.containsP p)).length

/-- The squared-deviation mean behind `rmsd` (see the module comment: the
source takes the square root of this value; all uses compare rmsds, and
the square root is monotone).  `rmsd` asserts at least one matched pair. -/
def SupTop.rmsd_sq (ctx : Ctx) (st : SupTop) : Except String ℚ :=
  match st.matched_pairs with
  | [] => .error "AssertionError: rmsd of an empty suptop"
  | ps =>
    let sq := ps.map (fun p =>
      let a := (ctx.lAtom p.1).pos
      let b := (ctx.rAtom p.2).pos
      (a.1 - b.1) ^ 2 + (a.2.1 - b.2.1) ^ 2 + (a.2.2 - b.2.2) ^ 2)
    .ok (sq.sum / sq.length)

/-- `rmsd_sq` for a stored mirror (a matched-pair list). -/
def mirror_rmsd_sq (ctx : Ctx) (ps : List Pair) : Except String ℚ :=
  SupTop.rmsd_sq ctx { matched_pairs := ps }

/-- `align_ligands_using_matched`: without MDAnalysis universes the method
prints a notice and simply returns `self.rmsd()`; the engine core modelled
here never constructs the universes (they come from the out-of-scope file
readers), so alignment is exactly an rmsd computation. -/
def SupTop.align_ligands_using_matched (ctx : Ctx) (st : SupTop)
    (overwrite_original : Bool := false) : Except String ℚ :=
  let _ := overwrite_original
  st.rmsd_sq ctx

/-! ## Graph utilities (modelling the networkx calls)

`nx.cycle_basis` returns the fundamental cycles of a spanning forest; the
concrete basis depends on traversal order, which no property below relies
on.  The implementation here uses a depth-first spanning forest. -/

/-- Neighbours of `u` in an undirected edge list. -/
def adjOf {α : Type} [DecidableEq α] (edges : List (α × α)) (u : α) : List α :=
  dedupF (edges.filterMap (fun e =>
    if e.1 = u then some e.2 else if e.2 = u then some e.1 else none))

/-- Depth-first visit recording (vertex, tree-parent) in visit order. -/
def dfsVisit {α : Type} [DecidableEq α] (edges : List (α × α)) :
    Nat → α → Option α → List (α × Option α) → List (α × Option α)
  | 0, _, _, par => par
  | fuel+1, v, p, par =>
    if (assocFind? par v).isSome then par
    else
      (adjOf edges v).foldl (fun acc w => dfsVisit edges fuel w (some v) acc)
        (par ++ [(v, p)])

/-- Spanning forest of the graph as a vertex → parent map. -/
def dfsForest {α : Type} [DecidableEq α] (verts : List α) (edges : List (α × α)) :
    List (α × Option α) :=
  verts.foldl (fun par v =>
    if (assocFind? par v).isSome then par
    else dfsVisit edges (verts.length + 1) v none par) []

/-- Path from a vertex to the root of its spanning tree. -/
def pathToRoot {α : Type} [DecidableEq α] (par : List (α × Option α)) :
    Nat → α → List α
  | 0, v => [v]
  | fuel+1, v =>
    match assocFind? par v with
    | some (some p) => v :: pathToRoot par fuel p
    | _ => [v]

/-- Fundamental cycles of the depth-first spanning forest, as vertex sets
(models `nx.cycle_basis`). -/
def cycleBasis {α : Type} [DecidableEq α] (verts : List α) (edges : List (α × α)) :
    List (List α) :=
  let par := dfsForest verts edges
  let n := verts.length
  let es := (edges.filter (fun e => ¬ e.1 = e.2)).foldl
    (fun acc e => if acc.any (fun e2 => (e2.1 = e.1 ∧ e2.2 = e.2) ∨ (e2.1 = e.2 ∧ e2.2 = e.1))
                  then acc else acc ++ [e]) []
  es.filterMap (fun e =>
    if assocFind? par e.1 = some (some e.2) ∨ assocFind? par e.2 = some (some e.1) then
      none
    else
      let pu := pathToRoot par (n + 1) e.1
      let pv := pathToRoot par (n + 1) e.2
      match pu.find? (fun x => pv.contains x) with
      | none => none
      | some l => some ((pu.takeWhile (fun x => ¬ x = l)) ++
                        (pv.takeWhile (fun x => ¬ x = l)) ++ [l]))

/-- Reflexive-transitive closure of adjacency starting from a vertex set. -/
def adjClosure {α : Type} [DecidableEq α] (edges : List (α × α)) :
    Nat → List α → List α
  | 0, acc => acc
  | fuel+1, acc =>
    let next := acc.foldl (fun a u => (adjOf edges u).foldl setAdd a) acc
    if next.length = acc.length then acc else adjClosure edges fuel next

/-- Connected components in first-seen vertex order (models
`nx.connected_components`). -/
def connectedComponents {α : Type} [DecidableEq α] (verts : List α)
    (edges : List (α × α)) : List (List α) :=
  verts.foldl (fun comps v =>
    if comps.any (fun c => c.contains v) then comps
    else comps ++ [adjClosure edges (verts.length + 1) [v]]) []

/-- The molecule graph of one ligand: vertices are the atom indices, edges
its bond lists (`_get_original_circle`). -/
def moleculeEdges (atoms : List AtomData) : List (Nat × Nat) :=
  (List.range atoms.length).flatMap (fun i =>
    ((atoms.getD i defaultAtom).bonds.filter (fun b => b.1 < atoms.length)).map
      (fun b => (i, b.1)))

/-- `get_original_circles` for one side. -/
def originalCircles (atoms : List AtomData) : List (List Nat) :=
  cycleBasis (List.range atoms.length) (moleculeEdges atoms)

/-- The graph induced by the matched left atoms (`get_nx_graphs`, left). -/
def inducedEdgesL (ctx : Ctx) (st : SupTop) : List (Nat × Nat) :=
  let vs := st.matched_pairs.map (fun p => p.1)
  vs.flatMap (fun i =>
    ((ctx.lAtom i).bonds.filter (fun b => vs.contains b.1)).map (fun b => (i, b.1)))

/-- The graph induced by the matched right atoms (`get_nx_graphs`, right). -/
def inducedEdgesR (ctx : Ctx) (st : SupTop) : List (Nat × Nat) :=
  let vs := st.matched_pairs.map (fun p => p.2)
  vs.flatMap (fun i =>
    ((ctx.rAtom i).bonds.filter (fun b => vs.contains b.1)).map (fun b => (i, b.1)))

/-- `get_circles`: cycle bases of the two induced graphs. -/
def SupTop.get_circles (ctx : Ctx) (st : SupTop) :
    List (List Nat) × List (List Nat) :=
  (cycleBasis (st.matched_pairs.map (fun p => p.1)) (inducedEdgesL ctx st),
   cycleBasis (st.matched_pairs.map (fun p => p.2)) (inducedEdgesR ctx st))

/-- `get_circle_number`. -/
def SupTop.get_circle_number (ctx : Ctx) (st : SupTop) : Nat × Nat :=
  let c := st.get_circles ctx
  (c.1.length, c.2.length)

/-- `same_circle_number`. -/
def SupTop.same_circle_number (ctx : Ctx) (st : SupTop) : Bool :=
  let c := st.get_circle_number ctx
  c.1 == c.2

/-- `_init_nonoverlapping_cycles` for one side: for every unordered pair of
cycles (in `itertools.combinations` order) remove from both the atoms of
their current intersection; the sets shrink as the fold proceeds, exactly
as the Python sets are mutated in place. -/
def nonoverlappingCycles (cycles : List (List Nat)) : List (List Nat) :=
  let n := cycles.length
  let idxPairs := (List.range n).flatMap (fun i =>
    ((List.range n).filter (fun j => i < j)).map (fun j => (i, j)))
  idxPairs.foldl (fun cs ij =>
    let c1 := cs.getD ij.1 []
    let c2 := cs.getD ij.2 []
    let common := c1.filter (fun a => c2.contains a)
    let cs := cs.set ij.1 (c1.filter (fun a => ¬ common.contains a))
    cs.set ij.2 (c2.filter (fun a => ¬ common.contains a))) cycles

/-- `SuperimposedTopology.__init__` with the two topologies: an empty
mapping plus the precomputed per-side non-overlapping cycles. -/
def mkSupTop (ctx : Ctx) : SupTop :=
  { nonoverlapping_l_cycles := nonoverlappingCycles (originalCircles ctx.left),
    nonoverlapping_r_cycles := nonoverlappingCycles (originalCircles ctx.right) }

/-- `_cycles_overlap(l_cycle, r_cycle)`: some cross pairing is contained. -/
def SupTop.cycles_overlap (st : SupTop) (lc rc : List Nat) : Bool :=
  lc.any (fun l => rc.any (fun r => st.containsP (l, r)))

/-- `cycle_spans_multiple_cycles`: some non-overlapping cycle on one side
overlaps (via the mapping) more than one non-overlapping cycle of the
other side. -/
def SupTop.cycle_spans_multiple_cycles (st : SupTop) : Bool :=
  st.nonoverlapping_l_cycles.any (fun lc =>
    (st.nonoverlapping_r_cycles.filter (fun rc => st.cycles_overlap lc rc)).length > 1) ||
  st.nonoverlapping_r_cycles.any (fun rc =>
    (st.nonoverlapping_l_cycles.filter (fun lc => st.cycles_overlap lc rc)).length > 1)

/-! ## Merging and combination resolution -/

/-- `merge(suptop)`: add every pair of the other ST that is not already
present (errors if an endpoint is in use), then copy the bonds of the
newly added pairs (each must have a non-empty bond set), and log.  Returns
the updated ST together with the newly added pairs. -/
def mergeAddLoop (ctx : Ctx) :
    List Pair → SupTop → List Pair → Except String (SupTop × List Pair)
  | [], cur, merged_pairs => .ok (cur, merged_pairs)
  | p :: rest, cur, merged_pairs =>
    if ¬ cur.containsP p then
      if cur.contains_node_l p.1 || cur.contains_node_r p.2 then
        throw "Exception: already uses that node"
      else do
        let cur' ← cur.add_node_pair ctx p
        mergeAddLoop ctx rest cur' (merged_pairs ++ [p])
    else
      mergeAddLoop ctx rest cur merged_pairs

def mergeLinkLoop (other : SupTop) : List Pair → SupTop → Except String SupTop
  | [], cur => .ok cur
  | p :: rest, cur =>
    match assocFind? other.matched_pairs_bonds p with
    | none => throw "KeyError: merged pair has no bond set"
    | some bonded_pairs =>
      if bonded_pairs.length = 0 then
        throw "AssertionError: merged pair with an empty bond set"
      else do
        let cur' ← cur.link_pairs p bonded_pairs
        mergeLinkLoop other rest cur'

def SupTop.merge (ctx : Ctx) (st other : SupTop) :
    Except String (SupTop × List Pair) := do
  let (cur0, merged_pairs) ← mergeAddLoop ctx other.matched_pairs st []
  let cur ← mergeLinkLoop other merged_pairs cur0
  .ok ({ cur with
         nodes_added_log := cur.nodes_added_log ++ [LogEntry.mergedWith merged_pairs] },
       merged_pairs)

/-- `is_consistent_cycles(suptop)`: both STs must have the same number of
induced cycles on both sides (otherwise an exception), and the merged copy
must keep the circle numbers equal. -/
def is_consistent_cycles (ctx : Ctx) (st other : SupTop) :
    Except String Bool := do
  let c1 := st.get_circle_number ctx
  if c1.1 ≠ c1.2 then
    throw "Exception: left G has a different number of cycles than right G"
  let c2 := other.get_circle_number ctx
  if c2.1 ≠ c2.2 then
    throw "Exception: left G has a different number of cycles than right G"
  let merged ← st.merge ctx other
  .ok (merged.1.same_circle_number ctx)

/-- `is_consistent_with(suptop)`: no clashing pair, at least one common
pair, and cycle consistency. -/
def is_consistent_with (ctx : Ctx) (st other : SupTop) :
    Except String Bool := do
  let clash := st.matched_pairs.any (fun p =>
    other.matched_pairs.any (fun q =>
      (p.1 = q.1 ∧ ¬ p.2 = q.2) ∨ (p.2 = q.2 ∧ ¬ p.1 = q.1)))
  if clash then
    .ok false
  else if st.count_common_node_pairs other = 0 then
    .ok false
  else
    is_consistent_cycles ctx st other

/-- `long_merge(suptop1, suptop2)`: merge with all checks; the Python
function mutates `suptop1` in place (its polymorphic return value is
discarded by the caller), so the model returns the updated `suptop1` —
unchanged on the `is`/`eq`/subgraph/inconsistent branches. -/
def long_merge (ctx : Ctx) (s1 s2 : SupTop) : Except String SupTop := do
  if s1 = s2 then
    .ok s1
  else if s1.eqST s2 then
    .ok s1
  else if s2.is_subgraph_of s1 then
    .ok s1
  else do
    let consistent ← is_consistent_with ctx s1 s2
    if ¬ consistent then
      .ok s1
    else do
      let m ← s1.merge ctx s2
      .ok m.1

/-- `get_largest(lists)`. -/
def get_largest (sts : List SupTop) : Except String (List SupTop) :=
  match sts.map SupTop.size with
  | [] => .error "ValueError: max() arg is an empty sequence"
  | s :: ss =>
    let largest := ss.foldl max s
    .ok (sts.filter (fun st => st.size == largest))

/-- `extract_best_suptop(suptops, ignore_coords)`, additionally returning
the index of the winner in the input list (standing in for Python object
identity, which two call sites test with `is`).  Ranking uses the
(squared) rmsd of each candidate; the non-winners are absorbed as mirrors
or alternative mappings. -/
def extract_best_suptop_idx (ctx : Ctx) (suptops : List SupTop)
    (ignore_coords : Bool) : Except String (Nat × SupTop) := do
  if ignore_coords then
    throw "NotImplementedError: Ignoring coords during superimposition is currently not possible"
  match suptops with
  | [] => throw "Exception: Cannot generate the best mapping without any suptops"
  | [st] => .ok (0, st)
  | _ => do
    let rmsds ← suptops.mapM (fun st => st.align_ligands_using_matched ctx)
    let minv := match rmsds with
      | [] => 0
      | q :: qs => qs.foldl min q
    let best := (rmsds.findIdx? (fun q => q == minv)).getD 0
    let mut cand := (suptops.getD best (mkSupTop ctx))
    let mut i := 0
    for st in suptops do
      if i = best then
        i := i + 1
        continue
      if st.is_mirror_of cand then
        cand ← cand.add_mirror_suptop st
      else
        cand := cand.add_alternative_mapping st
      i := i + 1
    .ok (best, cand)

/-- `extract_best_suptop` as the source returns it. -/
def extract_best_suptop (ctx : Ctx) (suptops : List SupTop)
    (ignore_coords : Bool) : Except String SupTop := do
  let r ← extract_best_suptop_idx ctx suptops ignore_coords
  .ok r.2

/-- `itertools.product` of two lists (left-major order). -/
def listProduct {α β : Type} (xs : List α) (ys : List β) : List (α × β) :=
  xs.flatMap (fun x => ys.map (fun y => (x, y)))

/-- `itertools.combinations`: all sorted-position subsequences of size `k`,
in the order itertools emits them. -/
def listCombinations {α : Type} : Nat → List α → List (List α)
  | 0, _ => [[]]
  | _ + 1, [] => []
  | k + 1, a :: as =>
    (listCombinations k as).map (fun c => a :: c) ++ listCombinations (k + 1) as

/-- `solve_one_combination(one_atom_species, ignore_coords)`: resolve the
choices of one element class.  `atoms` is the insertion-ordered mapping
left-neighbour → (right-neighbour → ST produced by the recursive call). -/
def solve_one_combination (ctx : Ctx)
    (atoms : List (Nat × List (Nat × SupTop))) (ignore_coords : Bool) :
    Except String SupTop := do
  match atoms with
  | [(_, candidates)] => do
    let largest ← get_largest (candidates.map (fun kv => kv.2))
    extract_best_suptop ctx largest ignore_coords
  | _ :: _ :: _ => do
    let unique_atoms := dedupF (atoms.flatMap (fun kv => kv.2.map (fun rv => rv.1)))
    if unique_atoms.length = 1 then do
      let candidates := atoms.filterMap (fun kv => (kv.2.map (fun rv => rv.2)).head?)
      let largest ← get_largest candidates
      extract_best_suptop ctx largest ignore_coords
    else do
      let left_keys := atoms.map (fun kv => kv.1)
      let right_keys := unique_atoms
      let all_pairs := listProduct left_keys right_keys
      let longest_match := min left_keys.length right_keys.length
      let all_combinations := listCombinations longest_match all_pairs
      let chosen := all_combinations.filter (fun s =>
        (dedupF (s.map (fun pr => pr.1))).length = longest_match ∧
        (dedupF (s.map (fun pr => pr.2))).length = longest_match)
      let mut alternatives : List SupTop := []
      for combined_pairs in chosen do
        let mut merged : Option SupTop := none
        for lr in combined_pairs do
          match assocFind? atoms lr.1 with
          | none => continue
          | some lk_map =>
            match assocFind? lk_map lr.2 with
            | none => continue
            | some top =>
              match merged with
              | none => merged := some top
              | some m => merged := some (← long_merge ctx m top)
        match merged with
        | none => continue
        | some m => alternatives := alternatives ++ [m]
      if alternatives.length = 0 then
        throw "AssertionError: no alternatives"
      let largest ← get_largest alternatives
      extract_best_suptop ctx largest ignore_coords
  | [] => throw "Exception: not implemented"

/-! ## The recursive overlay kernel -/

/-- Group consecutive elements with equal keys (`itertools.groupby`). -/
def groupConsecutive {α : Type} (key : α → String) : List α → List (String × List α)
  | [] => []
  | a :: as =>
    match groupConsecutive key as with
    | [] => [(key a, [a])]
    | (k, g) :: rest =>
      if key a = k then (key a, a :: g) :: rest else (key a, [a]) :: (k, g) :: rest

/-- The inner loop of the final merging pass of `_overlay`: `sol2` ranges
over a reversed snapshot of the live solution list.  Entries are tagged
with their index in the sorted list; tags stand for Python object
identity (`sol1 is sol2` and `list.remove`, which removes by identity
here). -/
def mergeDanceInner (ctx : Ctx) (sol1tag : Nat) :
    List (Nat × SupTop) → List (Nat × SupTop) → Except String (List (Nat × SupTop))
  | [], live => .ok live
  | (t, _) :: rest, live => do
    if t = sol1tag then
      mergeDanceInner ctx sol1tag rest live
    else
      match (live.find? (fun e => e.1 = sol1tag)), (live.find? (fun e => e.1 = t)) with
      | some e1, some e2 => do
        let sol1 := e1.2
        let sol2 := e2.2
        if sol1.eqST sol2 then
          mergeDanceInner ctx sol1tag rest (live.filter (fun e => ¬ e.1 = t))
        else if sol2.is_subgraph_of sol1 then
          mergeDanceInner ctx sol1tag rest live
        else do
          let consistent ← is_consistent_with ctx sol1 sol2
          if consistent then do
            let m ← sol1.merge ctx sol2
            let live2 := (live.map (fun e => if e.1 = sol1tag then (e.1, m.1) else e)).filter
              (fun e => ¬ e.1 = t)
            mergeDanceInner ctx sol1tag rest live2
          else
            mergeDanceInner ctx sol1tag rest live
      | _, _ => mergeDanceInner ctx sol1tag rest live

/-- The outer loop of the final merging pass: a Python `for` over the live
(mutating) list is an index cursor. -/
def mergeDanceOuter (ctx : Ctx) : Nat → Nat → List (Nat × SupTop) →
    Except String (List (Nat × SupTop))
  | 0, _, live => .ok live
  | fuel + 1, i, live =>
    if h : i < live.length then do
      let sol1tag := (live.get ⟨i, h⟩).1
      let live' ← mergeDanceInner ctx sol1tag live.reverse live
      mergeDanceOuter ctx fuel (i + 1) live'
    else
      .ok live

/-- `_overlay(n1, n2, parent_n1, parent_n2, bond_types, suptop,
ignore_coords, use_element_type)`: the recursive kernel.  `Option.none`
models the Python `None` return ("branch dead"); recursion depth is
bounded by explicit fuel (every recursive call grows the ST copy, so any
fuel above the atom count is sufficient). -/
def overlayRec (ctx : Ctx) (ignore_coords use_element_type : Bool) :
    Nat → Nat → Nat → Option Nat → Option Nat → BTPair → SupTop →
    Except String (Option SupTop)
  | 0, _, _, _, _, _, _ => throw "fuel exhausted"
  | fuel + 1, n1, n2, parent_n1, parent_n2, bond_types, suptop => do
    -- if either node has already been matched, ignore
    if suptop.contains_any_node n1 n2 then
      return none
    let a1 := ctx.lAtom n1
    let a2 := ctx.rAtom n2
    -- type compatibility
    if use_element_type ∧ ¬ same_element a1 a2 then
      return none
    if ¬ use_element_type ∧ ¬ same_type a1 a2 then
      return none
    -- joint cycle check: a cycle closed on one side must be closed by the
    -- exact counterpart edge on the other side
    let safe1 := a1.bonds.all (fun b1 =>
      if ¬ some b1.1 = parent_n1 ∧ suptop.contains_node_l b1.1 then
        a2.bonds.any (fun b2 =>
          ¬ some b2.1 = parent_n2 ∧ suptop.contains_node_r b2.1 ∧
            suptop.containsP (b1.1, b2.1))
      else true)
    if ¬ safe1 then
      return none
    let safe2 := a2.bonds.all (fun b2 =>
      if ¬ some b2.1 = parent_n2 ∧ suptop.contains_node_r b2.1 then
        a1.bonds.any (fun b1 =>
          ¬ some b1.1 = parent_n1 ∧ suptop.contains_node_l b1.1 ∧
            suptop.containsP (b1.1, b2.1))
      else true)
    if ¬ safe2 then
      return none
    -- cycle-spanning guard: evaluated on the ST as it stands, before the
    -- candidate pair is committed
    if suptop.cycle_spans_multiple_cycles then
      return none
    -- commit
    let mut cur ← suptop.add_node_pair ctx (n1, n2)
    if ¬ (parent_n1 = none ∧ parent_n2 = none) then
      match parent_n1, parent_n2 with
      | some q1, some q2 => cur ← cur.link_with_parent (n1, n2) (q1, q2) bond_types
      | _, _ => throw "AssertionError: malformed parent pair"
    -- the extra bonds to already-matched pairs are legitimate: record them
    for b1 in a1.bonds do
      if some b1.1 = parent_n1 then
        continue
      for b2 in a2.bonds do
        if some b2.1 = parent_n2 then
          continue
        if cur.containsP (b1.1, b2.1) then
          cur ← cur.link_pairs (n1, n2) [((b1.1, b2.1), (some b1.2, some b2.2))]
    -- neighbour recursion over element classes
    let n1_nb := a1.bonds.filter (fun b => ¬ some b.1 = parent_n1)
    let n2_nb := a2.bonds.filter (fun b => ¬ some b.1 = parent_n2)
    let n1srt := sortByKey
      (fun b c => strLeB (ctx.lAtom b.1).element (ctx.lAtom c.1).element) n1_nb
    let n2srt := sortByKey
      (fun b c => strLeB (ctx.rAtom b.1).element (ctx.rAtom c.1).element) n2_nb
    let groups1 := groupConsecutive (fun b => (ctx.lAtom b.1).element) n1srt
    let groups2 := groupConsecutive (fun b => (ctx.rAtom b.1).element) n2srt
    let mut combinations : List (List (Nat × List (Nat × SupTop))) := []
    for g1 in groups1 do
      for g2 in groups2 do
        if ¬ g1.1 = g2.1 then
          continue
        let mut atom_type_solutions : List (Nat × List (Nat × SupTop)) := []
        for b1 in g1.2 do
          let mut sols : List (Nat × SupTop) := []
          for b2 in g2.2 do
            -- the recursion receives a copy of the (already mutated) ST
            let r ← overlayRec ctx ignore_coords use_element_type fuel
              b1.1 b2.1 (some n1) (some n2) (some b1.2, some b2.2) cur
            match r with
            | none => pure ()
            | some st2 => sols := assocSet sols b2.1 st2
          if sols.length > 0 then
            atom_type_solutions := assocSet atom_type_solutions b1.1 sols
        if ¬ atom_type_solutions.length = 0 then
          combinations := combinations ++ [atom_type_solutions]
    -- combination resolution
    if combinations.length = 0 then
      return some cur
    if combinations.length = 1 then do
      let best ← solve_one_combination ctx (combinations.getD 0 []) ignore_coords
      return some best
    let mut all_solutions : List SupTop := []
    for atom_type in combinations do
      let sol ← solve_one_combination ctx atom_type ignore_coords
      all_solutions := all_solutions ++ [sol]
    if all_solutions.length ≤ 1 then
      throw "AssertionError: expected more than one solution"
    let sorted := sortByKey (fun x y => decide (y.size ≤ x.size)) all_solutions
    let live ← mergeDanceOuter ctx sorted.length 0 sorted.enum
    let vals := live.map (fun e => e.2)
    match vals.map SupTop.size with
    | [] => throw "ValueError: max() arg is an empty sequence"
    | s :: ss => do
      let largest := ss.foldl max s
      let best ← extract_best_suptop ctx (vals.filter (fun st => st.size == largest))
        ignore_coords
      return some best

/-! ## Post-filter machinery -/

/-- Set equality of two vertex sets (Python `set.__eq__`, used by
`list.remove` on lists of sets). -/
def setEqN (a b : List Nat) : Bool :=
  a.all (fun x => b.contains x) && b.all (fun x => a.contains x)

/-- `list.remove` with an explicit equality (first match; `ValueError` if
absent). -/
def pyRemoveBy {α : Type} (eqv : α → α → Bool) (l : List α) (a : α) :
    Except String (List α) :=
  match l with
  | [] => .error "ValueError: x not in list"
  | b :: bs =>
    if eqv b a then .ok bs
    else do
      let r ← pyRemoveBy eqv bs a
      .ok (b :: r)

/-- `are_matched_sets(l_atoms, r_atoms)`: equal sizes and every left atom's
match lies in the right set; an unmatched left atom is a `TypeError` in
the source (unpacking `None`). -/
def SupTop.are_matched_sets (st : SupTop) (l_atoms r_atoms : List Nat) :
    Except String Bool := do
  if l_atoms.length ≠ r_atoms.length then
    .ok false
  else do
    let mut ok := true
    for a in l_atoms do
      match st.get_pair_with_latom a with
      | none => throw "TypeError: cannot unpack None"
      | some p =>
        if ¬ r_atoms.contains p.2 then
          ok := false
    .ok ok

/-- `_remove_unmatched_ring_atoms(circles)` for the left side: removes the
pair of every matched atom in the given circles, recording it in
`_removed_because_unmatched_rings`. -/
def removeRingAtomsLoopL :
    List Nat → SupTop → List Pair → Except String (SupTop × List Pair)
  | [], cur, removed => .ok (cur, removed)
  | atom :: rest, cur, removed =>
    if cur.contains_node_l atom then
      match cur.get_pair_with_latom atom with
      | none => throw "TypeError: cannot unpack None"
      | some p => do
        let cur' ← cur.remove_node_pair p
        removeRingAtomsLoopL rest
          { cur' with removed_because_unmatched_rings :=
              cur'.removed_because_unmatched_rings ++ [p] }
          (removed ++ [p])
    else
      removeRingAtomsLoopL rest cur removed

def removeRingCirclesLoopL :
    List (List Nat) → SupTop → List Pair → Except String (SupTop × List Pair)
  | [], cur, removed => .ok (cur, removed)
  | circle :: rest, cur, removed => do
    let (cur', removed') ← removeRingAtomsLoopL circle cur removed
    removeRingCirclesLoopL rest cur' removed'

def SupTop.remove_unmatched_ring_atoms_l (st : SupTop) (circles : List (List Nat)) :
    Except String (SupTop × List Pair) :=
  removeRingCirclesLoopL circles st []

/-- `_remove_unmatched_ring_atoms(circles)` for the right side. -/
def removeRingAtomsLoopR :
    List Nat → SupTop → List Pair → Except String (SupTop × List Pair)
  | [], cur, removed => .ok (cur, removed)
  | atom :: rest, cur, removed =>
    if cur.contains_node_r atom then
      match cur.get_pair_with_ratom atom with
      | none => throw "TypeError: cannot unpack None"
      | some p => do
        let cur' ← cur.remove_node_pair p
        removeRingAtomsLoopR rest
          { cur' with removed_because_unmatched_rings :=
              cur'.removed_because_unmatched_rings ++ [p] }
          (removed ++ [p])
    else
      removeRingAtomsLoopR rest cur removed

def removeRingCirclesLoopR :
    List (List Nat) → SupTop → List Pair → Except String (SupTop × List Pair)
  | [], cur, removed => .ok (cur, removed)
  | circle :: rest, cur, removed => do
    let (cur', removed') ← removeRingAtomsLoopR circle cur removed
    removeRingCirclesLoopR rest cur' removed'

def SupTop.remove_unmatched_ring_atoms_r (st : SupTop) (circles : List (List Nat)) :
    Except String (SupTop × List Pair) :=
  removeRingCirclesLoopR circles st []

/-- The fixed-point loop of `enforce_no_partial_rings` (the Python
`while True`); `fuel` bounds the iterations (each non-final iteration
removes at least one matched pair). -/
def enforceRingsLoop (st : SupTop)
    (correct_circles : List (List Nat × List Nat)) :
    Nat → List (List Nat) → List (List Nat) →
    Except String SupTop
  | 0, _, _ => throw "fuel exhausted"
  | fuel + 1, l_circles, r_circles => do
    let (st1, l_removed) ← st.remove_unmatched_ring_atoms_l l_circles
    let (st2, r_removed) ← st1.remove_unmatched_ring_atoms_r r_circles
    let readd := correct_circles.filter (fun c =>
      l_removed.any (fun p => c.1.contains p.1) ||
      r_removed.any (fun p => c.2.contains p.2))
    let l_circles := l_circles ++ readd.map (fun c => c.1)
    let r_circles := r_circles ++ readd.map (fun c => c.2)
    if l_removed.length = 0 ∧ r_removed.length = 0 then
      .ok st2
    else
      enforceRingsLoop st2 correct_circles fuel l_circles r_circles

/-- The matched-circle elimination pass of `enforce_no_partial_rings`:
over reversed snapshots of the matched-circle lists, a fully overlapping
pair of circles is removed from the matched lists *and* from the original
lists (`list.remove` by set equality), and recorded in
`correct_circles`. -/
def eliminateMatchedInner (st : SupTop) (lmc : List Nat) :
    List (List Nat) →
    List (List Nat) → List (List Nat) → List (List Nat) → List (List Nat) →
    List (List Nat × List Nat) →
    Except String (List (List Nat) × List (List Nat) × List (List Nat) ×
                   List (List Nat) × List (List Nat × List Nat))
  | [], l_matched, r_matched, l_circles, r_circles, correct =>
    .ok (l_matched, r_matched, l_circles, r_circles, correct)
  | rmc :: rrest, l_matched, r_matched, l_circles, r_circles, correct => do
    let matched ← st.are_matched_sets lmc rmc
    if matched then do
      let l_matched ← pyRemoveBy setEqN l_matched lmc
      let r_matched ← pyRemoveBy setEqN r_matched rmc
      let l_circles ← pyRemoveBy setEqN l_circles lmc
      let r_circles ← pyRemoveBy setEqN r_circles rmc
      eliminateMatchedInner st lmc rrest l_matched r_matched l_circles r_circles
        (correct ++ [(lmc, rmc)])
    else
      eliminateMatchedInner st lmc rrest l_matched r_matched l_circles r_circles
        correct

def eliminateMatchedCircles (st : SupTop) :
    List (List Nat) → List (List Nat) →
    List (List Nat) → List (List Nat) → List (List Nat) → List (List Nat) →
    List (List Nat × List Nat) →
    Except String (List (List Nat) × List (List Nat) × List (List Nat) ×
                   List (List Nat) × List (List Nat × List Nat))
  | [], _, l_matched, r_matched, l_circles, r_circles, correct =>
    .ok (l_matched, r_matched, l_circles, r_circles, correct)
  | lmc :: lrest, r_snapshot, l_matched, r_matched, l_circles, r_circles, correct => do
    let (l_matched, r_matched, l_circles, r_circles, correct) ←
      eliminateMatchedInner st lmc r_snapshot l_matched r_matched l_circles
        r_circles correct
    eliminateMatchedCircles st lrest r_snapshot l_matched r_matched l_circles
      r_circles correct

/-- `enforce_no_partial_rings`, parameterised over the circle lists it
starts from (the original and the induced cycle bases of both sides).
The caller below supplies the computed bases; keeping the lists as
parameters lets the theorems quantify over every basis. -/
def SupTop.enforce_no_partial_rings_core (st : SupTop)
    (l_circles0 r_circles0 l_matched0 r_matched0 : List (List Nat)) :
    Except String SupTop := do
  let MAX_CIRCLE_SIZE := 7
  let l_circles := l_circles0.filter (fun c => c.length ≤ MAX_CIRCLE_SIZE)
  let r_circles := r_circles0.filter (fun c => c.length ≤ MAX_CIRCLE_SIZE)
  let l_matched := l_matched0.filter (fun c => c.length ≤ MAX_CIRCLE_SIZE)
  let r_matched := r_matched0.filter (fun c => c.length ≤ MAX_CIRCLE_SIZE)
  let (l_matched, r_matched, l_circles, r_circles, correct) ←
    eliminateMatchedCircles st l_matched.reverse r_matched.reverse
      l_matched r_matched l_circles r_circles []
  if ¬ (l_matched.length = 0 ∧ r_matched.length = 0) then
    throw "AssertionError: matched circles left over"
  enforceRingsLoop st correct (st.size + 1) l_circles r_circles

/-- `enforce_no_partial_rings`. -/
def SupTop.enforce_no_partial_rings (ctx : Ctx) (st : SupTop) :
    Except String SupTop := do
  let l_circles := originalCircles ctx.left
  let r_circles := originalCircles ctx.right
  let matched := st.get_circles ctx
  st.enforce_no_partial_rings_core l_circles r_circles matched.1 matched.2

/-- The pair graph of `largest_cc_survives`: vertices are the matched
pairs, edges the entries of `matched_pairs_bonds` (`lookup_up` raises if a
referenced pair is not a matched pair). -/
def SupTop.pairGraphEdges (st : SupTop) : Except String (List (Pair × Pair)) := do
  let mut edges : List (Pair × Pair) := []
  for kv in st.matched_pairs_bonds do
    if ¬ st.containsP kv.1 then
      throw "Exception: Did not find the AtomPair"
    for e in kv.2 do
      if ¬ st.containsP e.1 then
        throw "Exception: Did not find the AtomPair"
      edges := edges ++ [(kv.1, e.1)]
  .ok edges

/-- `largest_cc_survives`: keep only the largest connected component of
the pair graph (first one on ties); remove and log the rest. -/
def SupTop.largest_cc_survives (st : SupTop) : Except String SupTop := do
  let edges ← st.pairGraphEdges
  let ccs := connectedComponents st.matched_pairs edges
  match ccs.map List.length with
  | [] => throw "ValueError: max() arg is an empty sequence"
  | s :: ss => do
    let largest := ss.foldl max s
    let mut remove_ccs : List (List Pair) := []
    let mut live := ccs
    if ccs.length > 1 then do
      for cc in ccs.reverse do
        if cc.length < largest then
          remove_ccs := remove_ccs ++ [cc]
          live ← pyRemove live cc
      if live.length > 1 then do
        for cc in live.drop 1 do
          remove_ccs := remove_ccs ++ [cc]
        live := live.take 1
      if live.length ≠ 1 then
        throw "AssertionError: more than one main component"
    let mut cur := st
    for cc in remove_ccs do
      for p in cc do
        cur ← cur.remove_node_pair p
        cur := { cur with removed_because_disjointed_cc :=
                   cur.removed_because_disjointed_cc ++ [p] }
    .ok cur

/-- Overwrite the stored force-field type of a right-molecule atom
(the CC/CD normalisation mutates atom objects). -/
def Ctx.setTypeR (ctx : Ctx) (i : Nat) (ty : String) : Ctx :=
  { ctx with right := ctx.right.set i { ctx.rAtom i with type' := ty } }

/-- `{t1, t2} == {'CC', 'CD'}`. -/
def isCcCdSet (t1 t2 : String) : Bool :=
  (t1 == "CC" && t2 == "CD") || (t1 == "CD" && t2 == "CC")

/-- `match_cccd_to_cdcc`: for every CC/CD pair with exactly one CC/CD
neighbour pair, overwrite the right types with the left types (zero or
two or more such neighbours raise).  Mutates the atoms, i.e. the context. -/
def SupTop.match_cccd_to_cdcc (ctx : Ctx) (st : SupTop) : Except String Ctx := do
  let mut ctx := ctx
  let mut corrected_pairs : List Pair := []
  for p in st.matched_pairs do
    if ¬ isCcCdSet (ctx.lAtom p.1).type' (ctx.rAtom p.2).type' ∨
        corrected_pairs.contains p then
      continue
    match assocFind? st.matched_pairs_bonds p with
    | none => throw "KeyError: pair has no bond set"
    | some bonded => do
      let neigh := bonded.filter (fun e =>
        isCcCdSet (ctx.lAtom e.1.1).type' (ctx.rAtom e.1.2).type')
      if neigh.length > 1 then
        throw "Error: Problem with the CC-CD to CD-CC pair mapping."
      if neigh.length = 0 then
        throw "Error(?): Found CC-CD mismatch without a neighbouring CD-CC?"
      match neigh with
      | [] => throw "Error(?): Found CC-CD mismatch without a neighbouring CD-CC?"
      | e :: _ => do
        let b := e.1
        if (ctx.rAtom p.2).type' == (ctx.lAtom p.1).type' &&
            (ctx.rAtom b.2).type' == (ctx.lAtom b.1).type' then
          continue
        ctx := ctx.setTypeR p.2 (ctx.lAtom p.1).type'
        ctx := ctx.setTypeR b.2 (ctx.lAtom b.1).type'
        corrected_pairs := corrected_pairs ++ [p, b]
  .ok ctx

/-- Python `round` (banker's rounding, round half to even). -/
def pythonRound (q : ℚ) : ℤ :=
  let f := ⌊q⌋
  let frac := q - (f : ℚ)
  if frac < 1 / 2 then f
  else if frac > 1 / 2 then f + 1
  else if f % 2 = 0 then f else f + 1

/-- `validate_charges(atom_list_l, atom_list_right)`: both per-side sums
must be within `np.testing`'s `decimal=2` tolerance (`< 0.015`) of the
same integer.  Returns that integer. -/
def validate_charges (l r : List AtomData) : Except String ℤ := do
  let ql := (l.map AtomData.charge).sum
  let qr := (r.map AtomData.charge).sum
  if ¬ (|ql - (pythonRound ql : ℚ)| < 15 / 1000) then
    throw "AssertionError: left charges are not integral"
  if ¬ (|qr - (pythonRound qr : ℚ)| < 15 / 1000) then
    throw "AssertionError: right charges are not integral"
  if ¬ (|ql - qr| < 15 / 1000) then
    throw "AssertionError: whole charges differ"
  .ok (pythonRound ql)

/-- `get_disappearing_atoms`: left atoms not matched. -/
def SupTop.get_disappearing_atoms (ctx : Ctx) (st : SupTop) : List Nat :=
  (List.range ctx.left.length).filter (fun i =>
    ¬ st.matched_pairs.any (fun p => p.1 == i))

/-- `get_appearing_atoms`: right atoms not matched. -/
def SupTop.get_appearing_atoms (ctx : Ctx) (st : SupTop) : List Nat :=
  (List.range ctx.right.length).filter (fun i =>
    ¬ st.matched_pairs.any (fun p => p.2 == i))

/-- Overwrite the stored charge of a left / right atom. -/
def Ctx.setChargeL (ctx : Ctx) (i : Nat) (q : ℚ) : Ctx :=
  { ctx with left := ctx.left.set i { ctx.lAtom i with charge := q } }

def Ctx.setChargeR (ctx : Ctx) (i : Nat) (q : ℚ) : Ctx :=
  { ctx with right := ctx.right.set i { ctx.rAtom i with charge := q } }

/-- `redistribute_charges`: validate, average the charges of every
unequal matched pair, then spread each side's accumulated drift uniformly
over its unmatched atoms, and validate again.  Mutates the atoms, i.e.
the context. -/
def SupTop.redistribute_charges (ctx : Ctx) (st : SupTop) : Except String Ctx := do
  let _ ← validate_charges ctx.left ctx.right
  let mut ctx := ctx
  let mut l_delta : ℚ := 0
  let mut r_delta : ℚ := 0
  for p in st.matched_pairs do
    let lq := (ctx.lAtom p.1).charge
    let rq := (ctx.rAtom p.2).charge
    if lq ≠ rq then
      let avg := (lq + rq) / 2
      l_delta := l_delta + (lq - avg)
      r_delta := r_delta + (rq - avg)
      ctx := ctx.setChargeL p.1 avg
      ctx := ctx.setChargeR p.2 avg
  let l_unmatched := st.get_disappearing_atoms ctx
  let r_unmatched := st.get_appearing_atoms ctx
  let l_per : ℚ := if l_unmatched.length ≠ 0 then l_delta / l_unmatched.length else 0
  let r_per : ℚ := if r_unmatched.length ≠ 0 then r_delta / r_unmatched.length else 0
  for i in l_unmatched do
    ctx := ctx.setChargeL i ((ctx.lAtom i).charge + l_per)
  for i in r_unmatched do
    ctx := ctx.setChargeR i ((ctx.rAtom i).charge + r_per)
  let _ ← validate_charges ctx.left ctx.right
  .ok ctx

/-- `assign_atoms_ids(id_start)`: one shared id per pair, then fresh ids
for the unmatched atoms of both sides; returns the next free id. -/
def SupTop.assign_atoms_ids (ctx : Ctx) (st : SupTop) (id_start : Nat) :
    SupTop × Nat :=
  let afterPairs := st.matched_pairs.foldl (fun (acc : SupTop × Nat) p =>
    ({ acc.1 with
       internal_ids_l := assocSet acc.1.internal_ids_l p.1 acc.2,
       internal_ids_r := assocSet acc.1.internal_ids_r p.2 acc.2,
       internal_ids_pairs := assocSet acc.1.internal_ids_pairs p acc.2,
       unique_atom_count := acc.1.unique_atom_count + 1 }, acc.2 + 1))
    ({ st with internal_ids_l := [], internal_ids_r := [],
               internal_ids_pairs := [] }, id_start)
  let afterL := (List.range ctx.left.length).foldl (fun (acc : SupTop × Nat) i =>
    if acc.1.contains_node_l i then acc
    else ({ acc.1 with
            internal_ids_l := assocSet acc.1.internal_ids_l i acc.2,
            unique_atom_count := acc.1.unique_atom_count + 1 }, acc.2 + 1)) afterPairs
  (List.range ctx.right.length).foldl (fun (acc : SupTop × Nat) i =>
    if acc.1.contains_node_r i then acc
    else ({ acc.1 with
            internal_ids_r := assocSet acc.1.internal_ids_r i acc.2,
            unique_atom_count := acc.1.unique_atom_count + 1 }, acc.2 + 1)) afterL

/-! ## The seed loop and the orchestrator -/

/-- `seen(suptop, suptops)`. -/
def seenST (st : SupTop) (sts : List SupTop) : Bool :=
  sts.any (fun next => next.eqST st)

/-- `sub_graph_of(candidate_suptop, suptops)`. -/
def sub_graph_of (cand : SupTop) (sts : List SupTop) : Bool :=
  sts.any (fun s => cand.is_subgraph_of s)

/-- `is_mirror_of_one(suptop, suptops, ignore_coords)`: when the candidate
mirrors an accepted ST, `extract_best` picks the survivor, mirrors are
reshuffled and the list is updated; returns whether the candidate was
handled.  (When the accepted ST wins, the source makes it absorb itself
as a mirror through aliasing: `best is next_suptop`; the net effect on its
mirror list is to leave exactly its own matched-pair list.) -/
def is_mirror_of_one (ctx : Ctx) (ignore_coords : Bool) (st : SupTop)
    (suptops : List SupTop) : Except String (Bool × List SupTop) := do
  match suptops.find? (fun next => next.is_mirror_of st) with
  | none => .ok (false, suptops)
  | some next => do
    let best ← extract_best_suptop_idx ctx [st, next] ignore_coords
    let best2 ←
      if best.1 = 1 then
        pure { best.2 with mirrors := [best.2.matched_pairs] }
      else
        best.2.add_mirror_suptop next
    let rest ← pyRemove suptops next
    .ok (true, rest ++ [best2])

/-- `remove_candidates_subgraphs(candidate_suptop, suptops)`. -/
def remove_candidates_subgraphs (cand : SupTop) (sts : List SupTop) :
    Bool × List SupTop :=
  let keep := sts.filter (fun s => ¬ s.is_subgraph_of cand)
  (keep.length ≠ sts.length, keep)

/-- `solve_partial_overlaps(candidate_suptop, suptops)`: walk a reversed
snapshot; an overlapping larger accepted ST makes the function return
`True` (ignore the candidate); a smaller one is dropped; on equal sizes
the rmsd decides, and the loser is filed as an alternative mapping (note
that when the accepted ST wins, the source only sets a dead local flag,
so the candidate is *not* ignored).  Works on indexed entries: tags model
object identity. -/
def solve_partial_overlapsAux (ctx : Ctx) :
    List (Nat × SupTop) → List (Nat × SupTop) → SupTop →
    Except String (Bool × List (Nat × SupTop) × SupTop)
  | [], live, cand => .ok (false, live, cand)
  | (t, _) :: rest, live, cand => do
    match live.find? (fun e => e.1 = t) with
    | none => solve_partial_overlapsAux ctx rest live cand
    | some e => do
      let stv := e.2
      if stv.contains_any_node_from cand then
        if stv.size > cand.size then
          .ok (true, live, cand)
        else if stv.size < cand.size then
          solve_partial_overlapsAux ctx rest (live.filter (fun x => ¬ x.1 = t)) cand
        else do
          let r1 ← stv.rmsd_sq ctx
          let r2 ← cand.rmsd_sq ctx
          if r1 < r2 then
            let live2 := live.map (fun x =>
              if x.1 = t then (x.1, x.2.add_alternative_mapping cand) else x)
            solve_partial_overlapsAux ctx rest live2 cand
          else
            solve_partial_overlapsAux ctx rest (live.filter (fun x => ¬ x.1 = t))
              (cand.add_alternative_mapping stv)
      else
        solve_partial_overlapsAux ctx rest live cand

def solve_partial_overlaps (ctx : Ctx) (cand : SupTop) (suptops : List SupTop) :
    Except String (Bool × List SupTop × SupTop) := do
  let tagged := suptops.enum
  let r ← solve_partial_overlapsAux ctx tagged.reverse tagged cand
  .ok (r.1, r.2.1.map (fun e => e.2), r.2.2)

/-- `get_starting_configurations(left_atoms, right_atoms)` (the seed
heuristic): skip hydrogens and ring carbons, group by exact type, emit the
rarest classes first until 20 % of the theoretical overlap is covered.
Python iterates `set`s of type strings where this model keeps first-seen
order; only the seed order is affected. -/
def get_starting_configurations (ctx : Ctx) : Except String (List Pair) := do
  let fraction : ℚ := 2 / 10
  let leftIdx := List.range ctx.left.length
  let rightIdx := List.range ctx.right.length
  let left_noh := leftIdx.filter (fun i => (ctx.lAtom i).element ≠ "H")
  let right_noh := rightIdx.filter (fun i => (ctx.rAtom i).element ≠ "H")
  let left_types := dedupF (left_noh.map (fun i => (ctx.lAtom i).type'))
  let right_types := dedupF (right_noh.map (fun i => (ctx.rAtom i).type'))
  let common_types := left_types.filter (fun t => right_types.contains t)
  let max_overlap_size := (common_types.map (fun t =>
    min (leftIdx.countP (fun i => (ctx.lAtom i).type' = t))
        (rightIdx.countP (fun i => (ctx.rAtom i).type' = t)))).sum
  -- ignore ring carbons (on the right the source builds the ring graph
  -- from the already-filtered heavy-atom list)
  let l_cycles := originalCircles ctx.left
  let left_starting := left_noh.filter (fun i =>
    ¬ (l_cycles.any (fun c => c.contains i) ∧ (ctx.lAtom i).element = "C"))
  let rEdges := right_noh.flatMap (fun i =>
    (ctx.rAtom i).bonds.map (fun b => (i, b.1)))
  let rVerts := right_noh ++ (rEdges.map (fun e => e.2)).filter
    (fun v => ¬ right_noh.contains v)
  let r_cycles := cycleBasis (dedupF rVerts) rEdges
  let right_starting := right_noh.filter (fun i =>
    ¬ (r_cycles.any (fun c => c.contains i) ∧ (ctx.rAtom i).element = "C"))
  let left_types2 := dedupF (left_starting.map (fun i => (ctx.lAtom i).type'))
  let right_types2 := dedupF (right_starting.map (fun i => (ctx.rAtom i).type'))
  let common2 := left_types2.filter (fun t => right_types2.contains t)
  let paired_by_type := common2.map (fun t =>
    (left_starting.filter (fun i => (ctx.lAtom i).type' = t),
     right_starting.filter (fun i => (ctx.rAtom i).type' = t)))
  let sorted_paired := sortByKey (fun a b =>
    decide (min a.1.length a.2.length ≤ min b.1.length b.2.length)) paired_by_type
  let desired : ℤ := ⌊fraction * (max_overlap_size : ℚ)⌋
  let mut starting : List Pair := []
  let mut added_counter : ℤ := 0
  for g in sorted_paired do
    if added_counter > desired then
      break
    starting := starting ++ listProduct g.1 g.2
    added_counter := added_counter + min g.1.length g.2.length
    if added_counter > desired then
      break
  .ok starting

/-- The overlay fuel used by the search wrapper: every recursion level
commits one more pair, so any bound above the atom counts is enough. -/
def searchFuel (ctx : Ctx) : Nat := ctx.left.length + ctx.right.length + 2

/-- `_overlay` as invoked on a seed. -/
def overlayFromSeed (ctx : Ctx) (ignore_coords use_general_type : Bool)
    (seed : Pair) : Except String (Option SupTop) :=
  overlayRec ctx ignore_coords use_general_type (searchFuel ctx) seed.1 seed.2
    none none (none, none) (mkSupTop ctx)

/-- `_superimpose_topologies`: run the kernel for every seed and fold the
candidate through the duplicate / subgraph / mirror / supergraph /
partial-overlap tests; finally drop hydrogen-only STs and check that every
matched atom belongs to its topology. -/
def searchSeedLoop (ctx : Ctx) (ignore_coords use_general_type : Bool) :
    List Pair → List SupTop → Except String (List SupTop)
  | [], suptops => .ok suptops
  | seed :: rest, suptops => do
    let candidate? ← overlayFromSeed ctx ignore_coords use_general_type seed
    match candidate? with
    | none => searchSeedLoop ctx ignore_coords use_general_type rest suptops
    | some cand =>
      if cand.size = 0 then
        searchSeedLoop ctx ignore_coords use_general_type rest suptops
      else if seenST cand suptops then
        searchSeedLoop ctx ignore_coords use_general_type rest suptops
      else if sub_graph_of cand suptops then
        searchSeedLoop ctx ignore_coords use_general_type rest suptops
      else do
        let mir ← is_mirror_of_one ctx ignore_coords cand suptops
        if mir.1 then
          searchSeedLoop ctx ignore_coords use_general_type rest mir.2
        else
          let rcs := remove_candidates_subgraphs cand suptops
          if rcs.1 then
            searchSeedLoop ctx ignore_coords use_general_type rest (rcs.2 ++ [cand])
          else do
            let spo ← solve_partial_overlaps ctx cand suptops
            if spo.1 then
              searchSeedLoop ctx ignore_coords use_general_type rest spo.2.1
            else
              searchSeedLoop ctx ignore_coords use_general_type rest
                (spo.2.1 ++ [spo.2.2])

def superimposeSearch (ctx : Ctx) (starting_node_pairs : Option (List Pair))
    (ignore_coords use_general_type starting_pairs_heuristics : Bool) :
    Except String (List SupTop) := do
  let seeds ← match starting_node_pairs with
    | some l =>
      if l.isEmpty then
        if starting_pairs_heuristics then get_starting_configurations ctx
        else pure (listProduct (List.range ctx.left.length) (List.range ctx.right.length))
      else pure l
    | none =>
      if starting_pairs_heuristics then get_starting_configurations ctx
      else pure (listProduct (List.range ctx.left.length) (List.range ctx.right.length))
  let found ← searchSeedLoop ctx ignore_coords use_general_type seeds []
  -- drop suptops that superimpose hydrogens only
  let suptops := found.filter (fun st =>
    ¬ st.matched_pairs.all (fun p => (ctx.lAtom p.1).type' == "H"))
  -- the nodes of every pair must come from their topologies
  for st in suptops do
    for p in st.matched_pairs do
      if ¬ (p.1 < ctx.left.length) then
        throw "AssertionError: left node not in topology 1"
      if ¬ (p.2 < ctx.right.length) then
        throw "AssertionError: right node not in topology 2"
  .ok suptops

/-- `contains_atomNamePair`. -/
def SupTop.contains_atom_name_pair (ctx : Ctx) (st : SupTop) (an1 an2 : String) : Bool :=
  st.matched_pairs.any (fun p =>
    (ctx.lAtom p.1).name == an1 && (ctx.rAtom p.2).name == an2)

/-- `get_node(atom_id)` restricted to the left / right node set (names are
unique across the molecules when the orchestrator's name check is on). -/
def SupTop.get_node_l (ctx : Ctx) (st : SupTop) (an : String) : Option Nat :=
  st.nodesL.find? (fun i => (ctx.lAtom i).name == an)

def SupTop.get_node_r (ctx : Ctx) (st : SupTop) (an : String) : Option Nat :=
  st.nodesR.find? (fun i => (ctx.rAtom i).name == an)

/-- The configuration options of `superimpose_topologies` (defaults as in
the source). -/
structure SupCfg where
  pair_charge_atol : ℚ := 1 / 10
  use_charges : Bool := true
  use_coords : Bool := true
  starting_node_pairs : Option (List Pair) := none
  force_mismatch : Option (List (String × String)) := none
  disjoint_components : Bool := true
  net_charge_filter : Bool := true
  net_charge_threshold : ℚ := 1 / 10
  redistribute_charges_over_unmatched : Bool := true
  align_molecules : Bool := true
  partial_rings_allowed : Bool := true
  ignore_charges_completely : Bool := false
  ignore_bond_types : Bool := true
  ignore_coords : Bool := false
  left_coords_are_ref : Bool := true
  use_general_type : Bool := true
  use_only_element : Bool := false
  check_atom_names_unique : Bool := true
  starting_pairs_heuristics : Bool := true
deriving Repr

/-- The `while np.abs(suptop.get_net_charge()) > net_charge_threshold`
loop of the orchestrator, for one ST.  `none` = fuel ran out (the
net-charge-filter theorem shows `size + 1` fuel always suffices);
`some (.ok none)` = the ST shrank to nothing and is dropped from the
list; `some (.ok (some st))` = the loop exited normally. -/
def netChargeLoop (ctx : Ctx) (threshold : ℚ) :
    Nat → SupTop → Option (Except String (Option SupTop))
  | 0, _ => none
  | fuel + 1, st =>
    if |st.get_net_charge ctx| > threshold then
      match st.remove_worst_charge_match ctx with
      | .error e => some (.error e)
      | .ok (st', largest) =>
        if largest = 0 then
          some (.error "Exception: How can there be net charge but no pair can be found that actually is different?")
        else if st'.size = 0 then
          some (.ok none)
        else
          netChargeLoop ctx threshold fuel st'
    else
      some (.ok (some st))

/-- The net-charge filter applied to the ST list (step 7 of the global
post-filters): an emptied ST is dropped. -/
def netChargeStage (ctx : Ctx) (threshold : ℚ) (sts : List SupTop) :
    Except String (List SupTop) := do
  let mut out : List SupTop := []
  for st in sts do
    match netChargeLoop ctx threshold (st.size + 1) st with
    | none => throw "fuel exhausted"
    | some (.error e) => throw e
    | some (.ok none) => pure ()
    | some (.ok (some st')) => out := out ++ [st']
  .ok out

/-- The charge-redistribution step of the orchestrator (source lines
`if redistribute_charges_over_unmatched and not ignore_charges_completely
and disjoint_components:`): under that condition, more than one surviving
ST is a `NotImplementedError` and otherwise `redistribute_charges` runs
on `suptops[0]`; under any other configuration nothing happens. -/
def redistributeStage (redistribute_charges_over_unmatched
    ignore_charges_completely disjoint_components : Bool)
    (ctx : Ctx) (sts : List SupTop) : Except String Ctx := do
  if redistribute_charges_over_unmatched ∧ ¬ ignore_charges_completely ∧
      disjoint_components then
    if sts.length > 1 then
      throw "NotImplementedError: Currently distributing charges works only if there is no disjointed components"
    match sts with
    | [] => throw "IndexError: list index out of range"
    | st :: _ => st.redistribute_charges ctx
  else
    .ok ctx

/-- `superimpose_topologies`: the orchestrator.  Returns the final context
(the atom charges and types it mutated) together with the ranked STs. -/
def superimpose_topologies (ctx0 : Ctx) (cfg : SupCfg) :
    Except String (Ctx × List SupTop) := do
  let mut ctx := ctx0
  if ¬ cfg.ignore_charges_completely then
    let _ ← validate_charges ctx.left ctx.right
  if cfg.check_atom_names_unique then
    let same := (ctx.left.map AtomData.name).filter
      (fun n => (ctx.right.map AtomData.name).contains n)
    if same.length ≠ 0 then
      throw "AssertionError: The molecules have the same atom names."
  -- phase 1: the per-seed search
  let searched ← superimposeSearch ctx cfg.starting_node_pairs cfg.ignore_coords
    cfg.use_general_type cfg.starting_pairs_heuristics
  if searched.isEmpty then
    throw "Exception: Did not find a single superimposition state. Not even a single atom is common across the two molecules? Something must be wrong."
  let mut suptops := searched.map
    (fun st => { st with ignore_bond_types := cfg.ignore_bond_types })
  -- align the molecules using the largest suptop (the rmsd is computed
  -- and the MDA-less branch changes no state)
  if cfg.align_molecules then
    match suptops with
    | [] => throw "Exception: empty suptop list"
    | s :: rest =>
      let largest := rest.foldl (fun x y => if x.size > y.size then x else y) s
      let _ ← largest.align_ligands_using_matched ctx
  -- CC/CD normalisation (mutates atom types)
  for st in suptops do
    ctx ← st.match_cccd_to_cdcc ctx
  -- tighten general-type matches to exact types
  if ¬ cfg.use_only_element then
    let mut out : List SupTop := []
    for st in suptops do
      out := out ++ [← st.matched_atom_types_are_the_same ctx]
    suptops := out
  -- charge refinement
  if cfg.use_charges ∧ ¬ cfg.ignore_charges_completely then
    let mut out : List SupTop := []
    for st in suptops do
      out := out ++ [← st.refine_against_charges ctx cfg.pair_charge_atol]
    suptops := out
  -- forced mismatches
  match cfg.force_mismatch with
  | none => pure ()
  | some fm =>
    let mut out : List SupTop := []
    for st in suptops do
      let mut cur := st
      for nm in fm do
        if cur.contains_atom_name_pair ctx nm.1 nm.2 then
          match cur.get_node_l ctx nm.1, cur.get_node_r ctx nm.2 with
          | some n1, some n2 => cur ← cur.remove_node_pair (n1, n2)
          | _, _ => throw "ValueError: x not in list"
      out := out ++ [cur]
    suptops := out
  -- net-charge filter
  if cfg.net_charge_filter ∧ ¬ cfg.ignore_charges_completely then
    suptops ← netChargeStage ctx cfg.net_charge_threshold suptops
  -- partial rings
  if ¬ cfg.partial_rings_allowed then
    let mut out : List SupTop := []
    for st in suptops do
      out := out ++ [← st.enforce_no_partial_rings ctx]
    suptops := out
  -- drop empty suptops
  suptops := suptops.filter (fun st => st.size ≠ 0)
  -- disjoint components
  if ¬ cfg.disjoint_components then
    let mut out : List SupTop := []
    for st in suptops do
      out := out ++ [← st.largest_cc_survives]
    suptops := out
    if suptops.length > 1 then
      match suptops.map SupTop.size with
      | [] => pure ()
      | s :: ss =>
        let max_len := ss.foldl max s
        suptops := suptops.filter (fun st => st.size = max_len)
        if suptops.length > 1 then
          suptops := suptops.take 1
    if suptops.length ≠ 1 then
      throw "AssertionError: expected exactly one suptop"
  -- charge redistribution over the unmatched atoms
  ctx ← redistributeStage cfg.redistribute_charges_over_unmatched
    cfg.ignore_charges_completely cfg.disjoint_components ctx suptops
  -- atom id assignment
  let mut start_atom_id := 1
  let mut out : List SupTop := []
  for st in suptops do
    let r := st.assign_atoms_ids ctx start_atom_id
    out := out ++ [r.1]
    start_atom_id := r.2 + 1
  suptops := out
  -- rank by rmsd
  let keyed ← suptops.mapM (fun st => do
    let r ← st.rmsd_sq ctx
    pure (st, r))
  suptops := (sortByKey (fun a b => decide (a.2 ≤ b.2)) keyed).map (fun kv => kv.1)
  -- final alignment pass (rmsd checks only in the MDA-less model)
  if cfg.align_molecules then
    for st in suptops do
      let _ ← st.align_ligands_using_matched ctx
      for m in st.mirrors do
        let _ ← mirror_rmsd_sq ctx m
      let _ ← st.align_ligands_using_matched ctx true
  .ok (ctx, suptops)

/-! ## A reference model of `__copy__` (shallow copy of an ST)

The frame behaviour of `SuperimposedTopology.__copy__` is about Python
object identity, so this part of the development models references
explicitly: a heap of mutable objects and STs whose fields are references
into it.  `__copy__` builds `new_one = type(self)()` (allocating a fresh
object per field), overwrites every field reference with `self`'s via
`__dict__.update`, and then re-allocates fresh copies of exactly
`matched_pairs`, `nodes`, `nodes_added_log`, `matched_pairs_bonds`,
`mirrors` and `alternative_mappings`; the five removal-reason logs keep
pointing at `self`'s objects. -/

/-- A heap object: one of the mutable containers an ST owns.  `stRefList`
stands for the lists of ST objects (`mirrors`, `alternative_mappings`),
whose elements are themselves references. -/
inductive HObj where
  | pairList (l : List Pair)
  | nodeSet (l : List Nat × List Nat)
  | logList (l : List LogEntry)
  | bondMap (m : List (Pair × List (Pair × BTPair)))
  | stRefList (l : List Nat)
  | chargeLog (l : List (Pair × ℚ))
  | pairLog (l : List Pair)
deriving DecidableEq, Repr

abbrev Heap := List HObj

def Heap.alloc (h : Heap) (o : HObj) : Heap × Nat := (h ++ [o], h.length)

def Heap.read (h : Heap) (r : Nat) : HObj := h.getD r (HObj.pairLog [])

def Heap.write (h : Heap) (r : Nat) (o : HObj) : Heap := h.set r o

/-- An ST as a record of references into the heap. -/
structure RefST where
  matched_pairs : Nat
  nodes : Nat
  nodes_added_log : Nat
  matched_pairs_bonds : Nat
  mirrors : Nat
  alternative_mappings : Nat
  removed_pairs_with_charge_difference : Nat
  removed_because_disjointed_cc : Nat
  removed_due_to_net_charge : Nat
  removed_because_unmatched_rings : Nat
  removed_because_diff_bonds : Nat
deriving DecidableEq, Repr

/-- `SuperimposedTopology.__init__()` (no topologies): every container is
a fresh allocation. -/
def initRefST (h : Heap) : Heap × RefST :=
  let (h, mp) := h.alloc (HObj.pairList [])
  let (h, nd) := h.alloc (HObj.nodeSet ([], []))
  let (h, lg) := h.alloc (HObj.logList [])
  let (h, bm) := h.alloc (HObj.bondMap [])
  let (h, mi) := h.alloc (HObj.stRefList [])
  let (h, al) := h.alloc (HObj.stRefList [])
  let (h, rq) := h.alloc (HObj.chargeLog [])
  let (h, rd) := h.alloc (HObj.pairLog [])
  let (h, rn) := h.alloc (HObj.chargeLog [])
  let (h, rr) := h.alloc (HObj.pairLog [])
  let (h, rb) := h.alloc (HObj.pairLog [])
  (h, { matched_pairs := mp, nodes := nd, nodes_added_log := lg,
        matched_pairs_bonds := bm, mirrors := mi, alternative_mappings := al,
        removed_pairs_with_charge_difference := rq,
        removed_because_disjointed_cc := rd,
        removed_due_to_net_charge := rn,
        removed_because_unmatched_rings := rr,
        removed_because_diff_bonds := rb })

/-- `SuperimposedTopology.__copy__`. -/
def copyRefST (h : Heap) (st : RefST) : Heap × RefST :=
  -- new_one = type(self)(): transient fresh containers, all of whose
  -- references are immediately overwritten by `__dict__.update(self.__dict__)`
  let (h, _) := initRefST h
  -- shallow copies of the search-state containers
  let (h, mp) := h.alloc (h.read st.matched_pairs)
  let (h, nd) := h.alloc (h.read st.nodes)
  let (h, lg) := h.alloc (h.read st.nodes_added_log)
  let (h, bm) := h.alloc (h.read st.matched_pairs_bonds)
  let (h, mi) := h.alloc (h.read st.mirrors)
  let (h, al) := h.alloc (h.read st.alternative_mappings)
  (h, { st with
        matched_pairs := mp, nodes := nd, nodes_added_log := lg,
        matched_pairs_bonds := bm, mirrors := mi, alternative_mappings := al })

/-- Record a removal in `_removed_pairs_with_charge_difference` through a
given ST (as `refine_against_charges` does). -/
def recordChargeRemoval (h : Heap) (st : RefST) (e : Pair × ℚ) : Heap :=
  match h.read st.removed_pairs_with_charge_difference with
  | HObj.chargeLog l => h.write st.removed_pairs_with_charge_difference (HObj.chargeLog (l ++ [e]))
  | _ => h

/-- Read `_removed_pairs_with_charge_difference` through a given ST. -/
def readChargeRemovals (h : Heap) (st : RefST) : List (Pair × ℚ) :=
  match h.read st.removed_pairs_with_charge_difference with
  | HObj.chargeLog l => l
  | _ => []

/-- Record a removal in `_removed_due_to_net_charge` through a given ST
(as `remove_worst_charge_match` does). -/
def recordNetChargeRemoval (h : Heap) (st : RefST) (e : Pair × ℚ) : Heap :=
  match h.read st.removed_due_to_net_charge with
  | HObj.chargeLog l => h.write st.removed_due_to_net_charge (HObj.chargeLog (l ++ [e]))
  | _ => h

def readNetChargeRemovals (h : Heap) (st : RefST) : List (Pair × ℚ) :=
  match h.read st.removed_due_to_net_charge with
  | HObj.chargeLog l => l
  | _ => []

/-- Append a matched pair through a given ST (the list-mutating part of
`add_node_pair`), used to contrast the non-shared containers. -/
def recordMatchedPair (h : Heap) (st : RefST) (p : Pair) : Heap :=
  match h.read st.matched_pairs with
  | HObj.pairList l => h.write st.matched_pairs (HObj.pairList (l ++ [p]))
  | _ => h

def readMatchedPairs (h : Heap) (st : RefST) : List Pair :=
  match h.read st.matched_pairs with
  | HObj.pairList l => l
  | _ => []

def HObj.isChargeLog : HObj → Bool
  | .chargeLog _ => true
  | _ => false

def HObj.isPairList : HObj → Bool
  | .pairList _ => true
  | _ => false

/-- All the container references of an ST are live heap cells, and the
cells used by the record/read operations above hold objects of the
expected kind. -/
def RefST.wf (st : RefST) (h : Heap) : Prop :=
  st.matched_pairs < h.length ∧ st.nodes < h.length ∧
  st.nodes_added_log < h.length ∧ st.matched_pairs_bonds < h.length ∧
  st.mirrors < h.length ∧ st.alternative_mappings < h.length ∧
  st.removed_pairs_with_charge_difference < h.length ∧
  st.removed_because_disjointed_cc < h.length ∧
  st.removed_due_to_net_charge < h.length ∧
  st.removed_because_unmatched_rings < h.length ∧
  st.removed_because_diff_bonds < h.length ∧
  (HObj.isPairList (h.read st.matched_pairs)) = true ∧
  (HObj.isChargeLog (h.read st.removed_pairs_with_charge_difference)) = true ∧
  (HObj.isChargeLog (h.read st.removed_due_to_net_charge)) = true

instance (st : RefST) (h : Heap) : Decidable (st.wf h) := by
  unfold RefST.wf
  infer_instance

/-- The eleven transient cells allocated by `new_one = type(self)()`
inside `__copy__`, in allocation order. -/
def copyTransients : List HObj :=
  [HObj.pairList [], HObj.nodeSet ([], []), HObj.logList [], HObj.bondMap [],
   HObj.stRefList [], HObj.stRefList [], HObj.chargeLog [], HObj.pairLog [],
   HObj.chargeLog [], HObj.pairLog [], HObj.pairLog []]

/-- The heap segment that `copyRefST` appends: the eleven transient cells
of `new_one = type(self)()` followed by the six shallow copies. -/
def copyList (h : Heap) (st : RefST) : List HObj :=
  copyTransients ++
    [h.read st.matched_pairs, h.read st.nodes, h.read st.nodes_added_log,
     h.read st.matched_pairs_bonds, h.read st.mirrors, h.read st.alternative_mappings]

/-! ## Concrete inputs used by the claim theorems -/

/-- An atom as the mol2 reader constructs it (`use_general_type = True`);
the inputs below only use types from the element table, so the fallback
default is never hit. -/
def atomOf (name ty : String) (q : ℚ) (pos : ℚ × ℚ × ℚ)
    (bonds : List (Nat × String)) : AtomData :=
  match mkAtomNode name ty q pos true bonds with
  | .ok a => a
  | .error _ => defaultAtom

/-- Scenario S1/S2: L = C1–N1, R = C11–N11 (same two-atom topology). -/
def ctxS1 : Ctx :=
  { left := [atomOf "C1" "C" 0 (1, 1, 0) [(1, "1")],
             atomOf "N1" "N" 0 (1, 2, 0) [(0, "1")]],
    right := [atomOf "C11" "C" 0 (1, 1, 0) [(1, "1")],
              atomOf "N11" "N" 0 (1, 2, 0) [(0, "1")]] }

/-- Two single-atom molecules with no common element: no seed can yield a
non-empty ST. -/
def ctxSingletons : Ctx :=
  { left := [atomOf "C1" "C" 0 (0, 0, 0) []],
    right := [atomOf "N11" "N" 0 (0, 0, 0) []] }

/-- Left: a carbon triangle A1–A2–A3 with a pendant A4 on A3.  Right: two
carbon triangles B1–B2–B3 and B4–B5–B6 joined by the bridge bond B1–B4,
with a pendant B7 on B6. -/
def ctxTri : Ctx :=
  { left := [atomOf "A1" "C" 0 (0, 0, 0) [(1, "1"), (2, "1")],
             atomOf "A2" "C" 0 (1, 0, 0) [(0, "1"), (2, "1")],
             atomOf "A3" "C" 0 (0, 1, 0) [(0, "1"), (1, "1"), (3, "1")],
             atomOf "A4" "C" 0 (0, 2, 0) [(2, "1")]],
    right := [atomOf "B1" "C" 0 (0, 0, 0) [(1, "1"), (2, "1"), (3, "1")],
              atomOf "B2" "C" 0 (1, 0, 0) [(0, "1"), (2, "1")],
              atomOf "B3" "C" 0 (0, 1, 0) [(0, "1"), (1, "1")],
              atomOf "B4" "C" 0 (2, 0, 0) [(0, "1"), (4, "1"), (5, "1")],
              atomOf "B5" "C" 0 (3, 0, 0) [(3, "1"), (5, "1")],
              atomOf "B6" "C" 0 (2, 1, 0) [(3, "1"), (4, "1"), (6, "1")],
              atomOf "B7" "C" 0 (2, 2, 0) [(5, "1")]] }

/-- The ST holding only (A1, B1). -/
def stTri1 : SupTop :=
  ((mkSupTop ctxTri).add_node_pair ctxTri (0, 0)).toOption.getD (mkSupTop ctxTri)

/-- The ST holding (A1, B1) and (A2, B4): its left triangle overlaps both
right triangles, so it spans multiple cycles. -/
def stTri2 : SupTop :=
  (stTri1.add_node_pair ctxTri (1, 3)).toOption.getD stTri1

/-! ## C2 — two-atom chain, wrong start -/

/-- When the reuse guard passes and the elements disagree, the kernel
returns `none` straight away. -/
theorem overlay_none_of_same_element_false (ctx : Ctx) (ic : Bool) (fuel : Nat)
    (n1 n2 : Nat) (p1 p2 : Option Nat) (bts : BTPair) (st : SupTop)
    (hguard : st.contains_any_node n1 n2 = false)
    (helem : same_element (ctx.lAtom n1) (ctx.rAtom n2) = false) :
    overlayRec ctx ic true (fuel + 1) n1 n2 p1 p2 bts st = .ok none := by
  unfold overlayRec
  simp [hguard, helem]
  rfl

/-- **C2** (counterexample to the claim as stated): with the seed
`(C1, N11)` and a fresh empty ST, the overlay kernel returns `None` — it
does *not* return an ST of size 0. -/
theorem C2_counterexample :
    overlayRec ctxS1 false true 10 0 1 none none (none, none) (mkSupTop ctxS1) =
      .ok none := by
  decide

/-- **C2** (amended): for the two-atom chains L = C1–N1 and R = C11–N11,
invoking the overlay kernel with the seed pair (C1, N11) and a fresh empty
ST returns `none` (the "branch dead" signal, which the orchestrator's seed
loop treats like an empty ST), because the elements disagree at the first
step. -/
theorem C2_overlay_wrong_start (fuel : Nat) :
    overlayRec ctxS1 false true (fuel + 1) 0 1 none none (none, none)
      (mkSupTop ctxS1) = .ok none :=
  overlay_none_of_same_element_false ctxS1 false fuel 0 1 none none (none, none)
    (mkSupTop ctxS1) (by decide) (by decide)

/-! ## C3 — the cycle-spanning guard -/

/-- The cycle-spanning guard fires on the ST *as passed in*, before the
candidate pair is committed: whenever the reuse guard, the type check and
the joint cycle check pass and the incoming ST spans multiple cycles, the
kernel returns `none` without committing `(n1, n2)`. -/
theorem overlay_none_of_cycle_spans (ctx : Ctx) (ic uet : Bool) (fuel : Nat)
    (n1 n2 : Nat) (p1 p2 : Option Nat) (bts : BTPair) (st : SupTop)
    (hguard : st.contains_any_node n1 n2 = false)
    (htype1 : uet = true → same_element (ctx.lAtom n1) (ctx.rAtom n2) = true)
    (htype2 : uet = false → same_type (ctx.lAtom n1) (ctx.rAtom n2) = true)
    (hsafe1 : ((ctx.lAtom n1).bonds.all (fun b1 =>
        if ¬ some b1.1 = p1 ∧ st.contains_node_l b1.1 then
          (ctx.rAtom n2).bonds.any (fun b2 =>
            ¬ some b2.1 = p2 ∧ st.contains_node_r b2.1 ∧
              st.containsP (b1.1, b2.1))
        else true)) = true)
    (hsafe2 : ((ctx.rAtom n2).bonds.all (fun b2 =>
        if ¬ some b2.1 = p2 ∧ st.contains_node_r b2.1 then
          (ctx.lAtom n1).bonds.any (fun b1 =>
            ¬ some b1.1 = p1 ∧ st.contains_node_l b1.1 ∧
              st.containsP (b1.1, b2.1))
        else true)) = true)
    (hspan : st.cycle_spans_multiple_cycles = true) :
    overlayRec ctx ic uet (fuel + 1) n1 n2 p1 p2 bts st = .ok none := by
  unfold overlayRec
  cases uet with
  | true =>
    simp [hguard, htype1 rfl, hsafe1, hsafe2, hspan]
    rfl
  | false =>
    simp [hguard, htype2 rfl, hsafe1, hsafe2, hspan]
    rfl

/-- **C3** (counterexample to the claim as stated): a call for which the
ST extended with the candidate pair (A2, B4) spans multiple cycles, yet
the kernel returns an ST with (A2, B4) committed instead of `none` — the
guard saw only the un-extended ST. -/
theorem C3_counterexample :
    ((stTri1.add_node_pair ctxTri (1, 3)).toOption.map
        SupTop.cycle_spans_multiple_cycles = some true) ∧
    ((overlayRec ctxTri false true 10 1 3 (some 0) (some 0)
        (some "1", some "1") stTri1).toOption.join.map
        (fun st => st.containsP (1, 3)) = some true) := by
  constructor
  · decide
  · decide

/-- **C3** (amended): the cycle-spanning guard is evaluated *before* the
candidate pair is tentatively accepted: for every call
`overlay(n1, n2, …, st)` that passes the reuse, type-compatibility and
joint-cycle checks, if the incoming ST `st` (without `(n1, n2)`) satisfies
`cycle_spans_multiple_cycles()`, the call returns `none` and `(n1, n2)` is
not committed. -/
theorem C3_cycle_guard (ctx : Ctx) (ic uet : Bool) (fuel : Nat)
    (n1 n2 : Nat) (p1 p2 : Option Nat) (bts : BTPair) (st : SupTop)
    (hguard : st.contains_any_node n1 n2 = false)
    (htype1 : uet = true → same_element (ctx.lAtom n1) (ctx.rAtom n2) = true)
    (htype2 : uet = false → same_type (ctx.lAtom n1) (ctx.rAtom n2) = true)
    (hsafe1 : ((ctx.lAtom n1).bonds.all (fun b1 =>
        if ¬ some b1.1 = p1 ∧ st.contains_node_l b1.1 then
          (ctx.rAtom n2).bonds.any (fun b2 =>
            ¬ some b2.1 = p2 ∧ st.contains_node_r b2.1 ∧
              st.containsP (b1.1, b2.1))
        else true)) = true)
    (hsafe2 : ((ctx.rAtom n2).bonds.all (fun b2 =>
        if ¬ some b2.1 = p2 ∧ st.contains_node_r b2.1 then
          (ctx.lAtom n1).bonds.any (fun b1 =>
            ¬ some b1.1 = p1 ∧ st.contains_node_l b1.1 ∧
              st.containsP (b1.1, b2.1))
        else true)) = true)
    (hspan : st.cycle_spans_multiple_cycles = true) :
    overlayRec ctx ic uet (fuel + 1) n1 n2 p1 p2 bts st = .ok none :=
  overlay_none_of_cycle_spans ctx ic uet fuel n1 n2 p1 p2 bts st hguard htype1
    htype2 hsafe1 hsafe2 hspan

/-- Witness for the amended C3: the concrete call `(A4, B7)` against the
spanning ST `stTri2` hits the guard and returns `none`. -/
theorem C3_cycle_guard_witness :
    overlayRec ctxTri false true 10 3 6 (some 2) (some 5)
      (some "1", some "1") stTri2 = .ok none :=
  C3_cycle_guard ctxTri false true 9 3 6 (some 2) (some 5)
    (some "1", some "1") stTri2 (by decide) (fun _ => by decide)
    (fun h => by cases h) (by decide) (by decide) (by decide)


/-! ## C1 — the empty search result -/

theorem exceptBindOk {β γ : Type} (a : β) (f : β → Except String γ) :
    (Except.ok a : Except String β) >>= f = f a := rfl

theorem exceptPureBind {β γ : Type} (a : β) (f : β → Except String γ) :
    (pure a : Except String β) >>= f = f a := rfl

theorem searchSeedLoop_dead (ctx : Ctx) (ic ugt : Bool) (seeds : List Pair)
    (acc : List SupTop)
    (h : ∀ p ∈ seeds, overlayFromSeed ctx ic ugt p = .ok none ∨
         ∃ st, overlayFromSeed ctx ic ugt p = .ok (some st) ∧ st.size = 0) :
    searchSeedLoop ctx ic ugt seeds acc = .ok acc := by
  induction seeds with
  | nil => rfl
  | cons s rest ih =>
    have hrest : ∀ p ∈ rest, overlayFromSeed ctx ic ugt p = .ok none ∨
        ∃ st, overlayFromSeed ctx ic ugt p = .ok (some st) ∧ st.size = 0 :=
      fun p hp => h p (List.mem_cons_of_mem _ hp)
    rcases h s (List.mem_cons_self _ _) with hd | ⟨st, hst, hsz⟩
    · unfold searchSeedLoop
      rw [hd]
      exact ih hrest
    · unfold searchSeedLoop
      rw [hst]
      simp only [exceptBindOk]
      rw [if_pos hsz]
      exact ih hrest

theorem superimposeSearch_dead (ctx : Ctx) (ic ugt sph : Bool)
    (seeds : List Pair) (hne : seeds ≠ [])
    (hdead : ∀ p ∈ seeds, overlayFromSeed ctx ic ugt p = .ok none ∨
         ∃ st, overlayFromSeed ctx ic ugt p = .ok (some st) ∧ st.size = 0) :
    superimposeSearch ctx (some seeds) ic ugt sph = .ok [] := by
  unfold superimposeSearch
  have hl : seeds.isEmpty = false := by
    cases seeds with
    | nil => exact absurd rfl hne
    | cons a as => rfl
  simp only [hl, Bool.false_eq_true, if_false, exceptPureBind, exceptBindOk]
  rw [searchSeedLoop_dead ctx ic ugt seeds [] hdead]
  simp only [exceptBindOk, List.filter_nil, List.forIn_nil]
  rfl

theorem exceptThrowBind {β γ : Type} (e : String) (f : β → Except String γ) :
    (throw e : Except String β) >>= f = .error e := rfl

set_option maxHeartbeats 1000000 in
/-- **C1** (amended): for every pair of input topologies and explicit seed
list for which no seed pair yields a non-empty ST, the orchestrator does
not return an empty sequence — it raises the fatal "Did not find a single
superimposition state" exception. -/
theorem C1_empty_result_raises (ctx : Ctx) (cfg : SupCfg) (seeds : List Pair)
    (hseeds : cfg.starting_node_pairs = some seeds) (hne : seeds ≠ [])
    (hcharges : cfg.ignore_charges_completely = false →
      ∃ z, validate_charges ctx.left ctx.right = .ok z)
    (hnames : cfg.check_atom_names_unique = true →
      ((ctx.left.map AtomData.name).filter
        (fun n => (ctx.right.map AtomData.name).contains n)).length = 0)
    (hdead : ∀ p ∈ seeds,
      overlayFromSeed ctx cfg.ignore_coords cfg.use_general_type p = .ok none ∨
      ∃ st, overlayFromSeed ctx cfg.ignore_coords cfg.use_general_type p =
          .ok (some st) ∧ st.size = 0) :
    superimpose_topologies ctx cfg =
      .error "Exception: Did not find a single superimposition state. Not even a single atom is common across the two molecules? Something must be wrong." := by
  have hsearch := superimposeSearch_dead ctx cfg.ignore_coords
    cfg.use_general_type cfg.starting_pairs_heuristics seeds hne hdead
  have hnm : cfg.check_atom_names_unique = true →
      ∀ x ∈ ctx.left, ∀ y ∈ ctx.right, ¬ y.name = x.name := by
    intro hcn x hx y hy heq
    have h0 := hnames hcn
    rw [List.length_eq_zero] at h0
    have hmem : x.name ∈ (ctx.left.map AtomData.name).filter
        (fun n => (ctx.right.map AtomData.name).contains n) := by
      rw [List.mem_filter]
      refine ⟨List.mem_map_of_mem _ hx, ?_⟩
      have hx2 : x.name ∈ ctx.right.map AtomData.name :=
        heq ▸ List.mem_map_of_mem _ hy
      exact List.elem_eq_true_of_mem hx2
    rw [h0] at hmem
    cases hmem
  unfold superimpose_topologies
  rw [hseeds]
  cases hic : cfg.ignore_charges_completely with
  | false =>
    rcases hcharges hic with ⟨z, hz⟩
    cases hcn : cfg.check_atom_names_unique with
    | true =>
      simp [hz, hnames hcn, hsearch, exceptBindOk, exceptPureBind, exceptThrowBind]
      exact hnm hcn
    | false =>
      simp [hz, hsearch, exceptBindOk, exceptPureBind, exceptThrowBind]
  | true =>
    cases hcn : cfg.check_atom_names_unique with
    | true =>
      simp [hnames hcn, hsearch, exceptBindOk, exceptPureBind, exceptThrowBind]
      exact hnm hcn
    | false =>
      simp [hsearch, exceptBindOk, exceptPureBind, exceptThrowBind]

/-- Witness for the amended C1 at the single-atom molecules. -/
theorem C1_empty_result_raises_witness :
    superimpose_topologies ctxSingletons
      { starting_node_pairs := some [(0, 0)] } =
      .error "Exception: Did not find a single superimposition state. Not even a single atom is common across the two molecules? Something must be wrong." :=
  C1_empty_result_raises ctxSingletons
    { starting_node_pairs := some [(0, 0)] } [(0, 0)] rfl (by decide)
    (fun _ => ⟨0, by decide⟩) (fun _ => by decide)
    (fun p hp => by
      have hp0 : p = (0, 0) := by
        cases hp with
        | head => rfl
        | tail _ h => cases h
      subst hp0
      exact Or.inl (by decide))

/-- **C1** (counterexample to the claim as stated): for single-atom
molecules with no common element type, no seed yields a non-empty ST, and
the orchestrator raises instead of returning an empty sequence — both
with an explicit seed list and with the seeding heuristic. -/
theorem C1_counterexample :
    superimpose_topologies ctxSingletons { starting_node_pairs := some [(0, 0)] } =
      .error "Exception: Did not find a single superimposition state. Not even a single atom is common across the two molecules? Something must be wrong." ∧
    superimpose_topologies ctxSingletons {} =
      .error "Exception: Did not find a single superimposition state. Not even a single atom is common across the two molecules? Something must be wrong." := by
  constructor
  · decide
  · decide

/-! ## C5 — when charge redistribution runs -/

/-- Two-atom chains with opposite partial charges: every pair survives the
charge filters (|Δq| ≤ 0.1 e and zero net charge), so redistribution
would visibly average the charges to zero. -/
def ctxChainQ : Ctx :=
  { left := [atomOf "C1" "C" (5 / 100) (1, 1, 0) [(1, "1")],
             atomOf "N1" "N" (-5 / 100) (1, 2, 0) [(0, "1")]],
    right := [atomOf "C11" "C" (-5 / 100) (1, 1, 0) [(1, "1")],
              atomOf "N11" "N" (5 / 100) (1, 2, 0) [(0, "1")]] }

/-- The configuration of the C5 counterexample: charge redistribution on,
disjoint components disabled. -/
def cfgNoDisjoint : SupCfg :=
  { starting_node_pairs := some [(0, 0)], disjoint_components := false }

/-- The orchestrator run of the C5 counterexample. -/
def c5run : Ctx × List SupTop :=
  (superimpose_topologies ctxChainQ cfgNoDisjoint).toOption.getD (ctxChainQ, [])

/-- **C5** (counterexample to the claim as stated): with
`redistribute_charges_over_unmatched = True` and
`disjoint_components = False` (and charges in use), the orchestrator does
*not* invoke `redistribute_charges`: the atom charges come out of the run
unchanged, although invoking `redistribute_charges` on the sole surviving
ST would have averaged them all to zero. -/
theorem C5_counterexample :
    (c5run.2.length = 1 ∧
     c5run.1.left.map AtomData.charge = [5 / 100, -5 / 100] ∧
     c5run.1.right.map AtomData.charge = [-5 / 100, 5 / 100]) ∧
    ((c5run.2.headD (mkSupTop ctxChainQ)).redistribute_charges c5run.1).toOption.map
        (fun c => (c.left.map AtomData.charge, c.right.map AtomData.charge)) =
      some ([0, 0], [0, 0]) := by
  constructor
  · decide
  · decide

/-- **C5** (amended): the orchestrator invokes `redistribute_charges` on
`suptops[0]` exactly when `redistribute_charges_over_unmatched` is enabled,
`ignore_charges_completely` is disabled and `disjoint_components` is
enabled (i.e. *not* when disjoint components are disabled), for every
configuration of the remaining options; with disjoint components disabled
the charge state is returned untouched. -/
theorem C5_redistribute_condition (cfg : SupCfg) (ctx : Ctx) (sts : List SupTop) :
    (cfg.disjoint_components = false →
      redistributeStage cfg.redistribute_charges_over_unmatched
        cfg.ignore_charges_completely cfg.disjoint_components ctx sts = .ok ctx) ∧
    (cfg.redistribute_charges_over_unmatched = false →
      redistributeStage cfg.redistribute_charges_over_unmatched
        cfg.ignore_charges_completely cfg.disjoint_components ctx sts = .ok ctx) ∧
    (cfg.ignore_charges_completely = true →
      redistributeStage cfg.redistribute_charges_over_unmatched
        cfg.ignore_charges_completely cfg.disjoint_components ctx sts = .ok ctx) ∧
    (cfg.redistribute_charges_over_unmatched = true →
      cfg.ignore_charges_completely = false →
      cfg.disjoint_components = true →
      ∀ st, sts = [st] →
        redistributeStage cfg.redistribute_charges_over_unmatched
          cfg.ignore_charges_completely cfg.disjoint_components ctx sts =
          st.redistribute_charges ctx) := by
  refine ⟨?_, ?_, ?_, ?_⟩
  · intro h
    unfold redistributeStage
    rw [h]
    simp
  · intro h
    unfold redistributeStage
    rw [h]
    simp
  · intro h
    unfold redistributeStage
    rw [h]
    simp
  · intro h1 h2 h3 st hsts
    subst hsts
    unfold redistributeStage
    rw [h1, h2, h3]
    simp

/-- Witness for the amended C5: with disjoint components disabled the
stage returns the context unchanged. -/
theorem C5_redistribute_condition_witness :
    redistributeStage true false false ctxChainQ [] = .ok ctxChainQ :=
  (C5_redistribute_condition { disjoint_components := false } ctxChainQ []).1 rfl

/-! ## C6 — termination of the net-charge filter loop -/

theorem exceptErrBind {β γ : Type} (e : String) (f : β → Except String γ) :
    (Except.error e : Except String β) >>= f = .error e := rfl

theorem exceptBindOkInv {β γ : Type} {m : Except String β}
    {f : β → Except String γ} {r : γ} (h : m >>= f = .ok r) :
    ∃ b, m = .ok b ∧ f b = .ok r := by
  cases m with
  | error e => cases h
  | ok b => exact ⟨b, rfl, h⟩

/-- `remove_node_pair` sets `matched_pairs` to the result of removing the
pair from the list. -/
theorem remove_node_pair_matched (st : SupTop) (p : Pair) (st' : SupTop)
    (h : st.remove_node_pair p = .ok st') :
    ∃ pairs, pyRemove st.matched_pairs p = .ok pairs ∧
      st'.matched_pairs = pairs := by
  unfold SupTop.remove_node_pair at h
  rcases exceptBindOkInv h with ⟨pairs, h1, h⟩
  rcases exceptBindOkInv h with ⟨nodesL, h2, h⟩
  rcases exceptBindOkInv h with ⟨nodesR, h3, h⟩
  cases h4 : assocFind? st.matched_pairs_bonds p with
  | none => rw [h4] at h; cases h
  | some bound_pairs =>
    rw [h4] at h
    rcases exceptBindOkInv h with ⟨bonds, h5, h⟩
    cases h
    exact ⟨pairs, h1, rfl⟩

/-- A successful removal shrinks `matched_pairs` by exactly one. -/
theorem remove_node_pair_size (st : SupTop) (p : Pair) (st' : SupTop)
    (h : st.remove_node_pair p = .ok st') : st'.size + 1 = st.size := by
  rcases remove_node_pair_matched st p st' h with ⟨pairs, h1, h2⟩
  unfold SupTop.size
  rw [h2]
  exact pyRemove_length h1

/-- `remove_worst_charge_match` with a non-zero worst difference removes
exactly one matched pair. -/
theorem remove_worst_removes_one (ctx : Ctx) (st : SupTop) (st' : SupTop)
    (largest : ℚ) (h : st.remove_worst_charge_match ctx = .ok (st', largest))
    (hne : largest ≠ 0) : st'.size + 1 = st.size := by
  unfold SupTop.remove_worst_charge_match at h
  rcases exceptBindOkInv h with ⟨worstq, h1, h⟩
  by_cases hq : worstq = 0
  · rw [if_pos hq] at h
    cases h
    exact absurd rfl hne
  · rw [if_neg hq] at h
    cases h2 : st.matched_pairs.find?
        (fun p => |(ctx.lAtom p.1).charge - (ctx.rAtom p.2).charge| == worstq) with
    | none => rw [h2] at h; cases h
    | some worst =>
      rw [h2] at h
      rcases exceptBindOkInv h with ⟨st2, h3, h⟩
      cases h
      exact remove_node_pair_size st worst st2 h3

/-- The net-charge `while` loop completes within `size + 1` iterations. -/
theorem netChargeLoop_completes (ctx : Ctx) (thr : ℚ) :
    ∀ fuel (st : SupTop), st.size < fuel →
      (netChargeLoop ctx thr fuel st).isSome = true := by
  intro fuel
  induction fuel with
  | zero => intro st h; cases h
  | succ n ih =>
    intro st hlt
    unfold netChargeLoop
    by_cases hnet : |st.get_net_charge ctx| > thr
    · rw [if_pos hnet]
      cases hrw : st.remove_worst_charge_match ctx with
      | error e => rfl
      | ok r =>
        obtain ⟨st2, largest⟩ := r
        simp only []
        by_cases hz : largest = 0
        · simp only [hz, if_pos rfl]
          rfl
        · simp only [if_neg hz]
          by_cases hempty : st2.size = 0
          · simp only [if_pos hempty]
            rfl
          · simp only [if_neg hempty]
            have hsz : st2.size + 1 = st.size :=
              remove_worst_removes_one ctx st st2 largest hrw hz
            exact ih st2 (by omega)
    · rw [if_neg hnet]
      rfl

/-- **C6**: the net-charge filter loop terminates: every iteration either
removes exactly one matched pair (so `|matched_pairs|` strictly
decreases) or exits the loop (by the threshold test, by dropping the
emptied ST, or by one of the two error exits), and `size + 1` iterations
always suffice. -/
theorem C6_net_charge_loop_terminates (ctx : Ctx) (thr : ℚ) (st : SupTop) :
    (∀ st2 largest, st.remove_worst_charge_match ctx = .ok (st2, largest) →
      largest ≠ 0 → st2.size + 1 = st.size) ∧
    (netChargeLoop ctx thr (st.size + 1) st).isSome = true := by
  constructor
  · intro st2 largest h hne
    exact remove_worst_removes_one ctx st st2 largest h hne
  · exact netChargeLoop_completes ctx thr (st.size + 1) st (Nat.lt_succ_self _)

/-- Witness for C6: a concrete ST whose net charge exceeds the threshold;
the loop removes its only pair and exits by dropping the emptied ST. -/
def ctxC6 : Ctx :=
  { left := [atomOf "C1" "C" (1 / 2) (0, 0, 0) []],
    right := [atomOf "C11" "C" 0 (0, 0, 0) []] }

def stC6 : SupTop :=
  ((mkSupTop ctxC6).add_node_pair ctxC6 (0, 0)).toOption.getD (mkSupTop ctxC6)

theorem C6_net_charge_loop_terminates_witness :
    (netChargeLoop ctxC6 (1 / 10) (stC6.size + 1) stC6).isSome = true :=
  (C6_net_charge_loop_terminates ctxC6 (1 / 10) stC6).2

/-! ## C10 — the shallow copy shares the removal-reason logs -/

theorem heapReadExt (h l : Heap) (r : Nat) (hr : r < h.length) :
    Heap.read (h ++ l) r = Heap.read h r := by
  unfold Heap.read
  induction h generalizing r with
  | nil => exact absurd hr (by simp)
  | cons a t ih =>
    cases r with
    | zero => rfl
    | succ n => exact ih n (by simpa using hr)

theorem heapReadAppendRight (h l : Heap) (i : Nat) :
    Heap.read (h ++ l) (h.length + i) = Heap.read l i := by
  unfold Heap.read
  induction h with
  | nil => simp
  | cons a t ih =>
    have : (a :: t).length + i = (t.length + i) + 1 := by
      simp [List.length_cons]
      omega
    rw [this]
    simpa using ih

theorem heapReadWriteSelf (h : Heap) (r : Nat) (o : HObj) (hr : r < h.length) :
    Heap.read (h.write r o) r = o := by
  unfold Heap.read Heap.write
  induction h generalizing r with
  | nil => exact absurd hr (by simp)
  | cons a t ih =>
    cases r with
    | zero => rfl
    | succ n => exact ih n (by simpa using hr)

theorem heapReadWriteOther (h : Heap) (r s : Nat) (o : HObj) (hne : s ≠ r) :
    Heap.read (h.write r o) s = Heap.read h s := by
  unfold Heap.read Heap.write
  induction h generalizing r s with
  | nil => rfl
  | cons a t ih =>
    cases r with
    | zero =>
      cases s with
      | zero => exact absurd rfl hne
      | succ m => rfl
    | succ n =>
      cases s with
      | zero => rfl
      | succ m => exact ih n m (fun hh => hne (by rw [hh]))

theorem copyRefST_spec (h : Heap) (st : RefST)
    (hmp : st.matched_pairs < h.length) (hnd : st.nodes < h.length)
    (hlg : st.nodes_added_log < h.length) (hbm : st.matched_pairs_bonds < h.length)
    (hmi : st.mirrors < h.length) (hal : st.alternative_mappings < h.length) :
    copyRefST h st =
      (h ++ copyList h st,
       { st with matched_pairs := h.length + 11, nodes := h.length + 12,
                 nodes_added_log := h.length + 13, matched_pairs_bonds := h.length + 14,
                 mirrors := h.length + 15, alternative_mappings := h.length + 16 }) := by
  unfold copyRefST initRefST Heap.alloc
  simp only [copyList, copyTransients, List.append_assoc, List.singleton_append,
    List.cons_append, List.nil_append, List.length_append, List.length_cons, List.length_nil]
  rw [heapReadExt _ _ _ hmp, heapReadExt _ _ _ hnd, heapReadExt _ _ _ hlg,
      heapReadExt _ _ _ hbm, heapReadExt _ _ _ hmi, heapReadExt _ _ _ hal]

theorem isChargeLog_elim (o : HObj) (ho : o.isChargeLog = true) :
    ∃ l, o = HObj.chargeLog l := by
  cases o <;> simp [HObj.isChargeLog] at ho ⊢

theorem isPairList_elim (o : HObj) (ho : o.isPairList = true) :
    ∃ l, o = HObj.pairList l := by
  cases o <;> simp [HObj.isPairList] at ho ⊢

/-- **C10.**  The shallow copy `__copy__` duplicates `matched_pairs`,
`nodes`, `nodes_added_log`, `matched_pairs_bonds`, `mirrors` and
`alternative_mappings` (fresh references holding the same contents) but
shares the five removal-reason logs by reference: after `st2 = copy(st1)`
a removal recorded through either ST is visible in both STs' logs, while
a pair appended to the copy's `matched_pairs` is not visible through the
original. -/
theorem C10_copy_shares_removal_logs (h : Heap) (st : RefST) (hwf : st.wf h)
    (e : Pair × ℚ) (p : Pair) :
    ((copyRefST h st).2.removed_pairs_with_charge_difference
        = st.removed_pairs_with_charge_difference
     ∧ (copyRefST h st).2.removed_because_disjointed_cc = st.removed_because_disjointed_cc
     ∧ (copyRefST h st).2.removed_due_to_net_charge = st.removed_due_to_net_charge
     ∧ (copyRefST h st).2.removed_because_unmatched_rings = st.removed_because_unmatched_rings
     ∧ (copyRefST h st).2.removed_because_diff_bonds = st.removed_because_diff_bonds) ∧
    ((copyRefST h st).2.matched_pairs ≠ st.matched_pairs
     ∧ (copyRefST h st).2.nodes ≠ st.nodes
     ∧ (copyRefST h st).2.nodes_added_log ≠ st.nodes_added_log
     ∧ (copyRefST h st).2.matched_pairs_bonds ≠ st.matched_pairs_bonds
     ∧ (copyRefST h st).2.mirrors ≠ st.mirrors
     ∧ (copyRefST h st).2.alternative_mappings ≠ st.alternative_mappings) ∧
    ((copyRefST h st).1.read (copyRefST h st).2.matched_pairs = h.read st.matched_pairs
     ∧ (copyRefST h st).1.read (copyRefST h st).2.nodes = h.read st.nodes
     ∧ (copyRefST h st).1.read (copyRefST h st).2.nodes_added_log = h.read st.nodes_added_log
     ∧ (copyRefST h st).1.read (copyRefST h st).2.matched_pairs_bonds
        = h.read st.matched_pairs_bonds
     ∧ (copyRefST h st).1.read (copyRefST h st).2.mirrors = h.read st.mirrors
     ∧ (copyRefST h st).1.read (copyRefST h st).2.alternative_mappings
        = h.read st.alternative_mappings) ∧
    (readChargeRemovals (recordChargeRemoval (copyRefST h st).1 (copyRefST h st).2 e) st
        = readChargeRemovals (copyRefST h st).1 st ++ [e]) ∧
    (readChargeRemovals (recordChargeRemoval (copyRefST h st).1 st e) (copyRefST h st).2
        = readChargeRemovals (copyRefST h st).1 (copyRefST h st).2 ++ [e]) ∧
    (readNetChargeRemovals (recordNetChargeRemoval (copyRefST h st).1 (copyRefST h st).2 e) st
        = readNetChargeRemovals (copyRefST h st).1 st ++ [e]) ∧
    (readMatchedPairs (recordMatchedPair (copyRefST h st).1 (copyRefST h st).2 p)
        (copyRefST h st).2
        = readMatchedPairs (copyRefST h st).1 (copyRefST h st).2 ++ [p]) ∧
    (readMatchedPairs (recordMatchedPair (copyRefST h st).1 (copyRefST h st).2 p) st
        = readMatchedPairs (copyRefST h st).1 st) := by
  obtain ⟨h1, h2, h3, h4, h5, h6, h7, h8, h9, h10, h11, hmL, hqL, hnL⟩ := hwf
  have hspec := copyRefST_spec h st h1 h2 h3 h4 h5 h6
  obtain ⟨ql, hqread⟩ := isChargeLog_elim _ hqL
  obtain ⟨nl, hnread⟩ := isChargeLog_elim _ hnL
  obtain ⟨ml, hmread⟩ := isPairList_elim _ hmL
  have hlen' : ((copyRefST h st).1).length = h.length + 17 := by
    rw [hspec]
    simp [copyList, copyTransients, List.length_append]
  -- the five removal-log references are untouched
  have hsa : (copyRefST h st).2.removed_pairs_with_charge_difference
      = st.removed_pairs_with_charge_difference := by rw [hspec]
  have hsb : (copyRefST h st).2.removed_because_disjointed_cc
      = st.removed_because_disjointed_cc := by rw [hspec]
  have hsc : (copyRefST h st).2.removed_due_to_net_charge
      = st.removed_due_to_net_charge := by rw [hspec]
  have hsd : (copyRefST h st).2.removed_because_unmatched_rings
      = st.removed_because_unmatched_rings := by rw [hspec]
  have hse : (copyRefST h st).2.removed_because_diff_bonds
      = st.removed_because_diff_bonds := by rw [hspec]
  -- the six duplicated containers point at the freshly allocated cells
  have hfa : (copyRefST h st).2.matched_pairs = h.length + 11 := by rw [hspec]
  have hfb : (copyRefST h st).2.nodes = h.length + 12 := by rw [hspec]
  have hfc : (copyRefST h st).2.nodes_added_log = h.length + 13 := by rw [hspec]
  have hfd : (copyRefST h st).2.matched_pairs_bonds = h.length + 14 := by rw [hspec]
  have hfe : (copyRefST h st).2.mirrors = h.length + 15 := by rw [hspec]
  have hff : (copyRefST h st).2.alternative_mappings = h.length + 16 := by rw [hspec]
  -- the fresh cells hold the same contents as the originals
  have hca : (copyRefST h st).1.read (h.length + 11) = h.read st.matched_pairs := by
    rw [hspec, heapReadAppendRight]
    rfl
  have hcb : (copyRefST h st).1.read (h.length + 12) = h.read st.nodes := by
    rw [hspec, heapReadAppendRight]
    rfl
  have hcc : (copyRefST h st).1.read (h.length + 13) = h.read st.nodes_added_log := by
    rw [hspec, heapReadAppendRight]
    rfl
  have hcd : (copyRefST h st).1.read (h.length + 14) = h.read st.matched_pairs_bonds := by
    rw [hspec, heapReadAppendRight]
    rfl
  have hce : (copyRefST h st).1.read (h.length + 15) = h.read st.mirrors := by
    rw [hspec, heapReadAppendRight]
    rfl
  have hcf : (copyRefST h st).1.read (h.length + 16) = h.read st.alternative_mappings := by
    rw [hspec, heapReadAppendRight]
    rfl
  -- shared cells read the same through the copy's heap
  have hrq : (copyRefST h st).1.read st.removed_pairs_with_charge_difference
      = h.read st.removed_pairs_with_charge_difference := by
    rw [hspec]
    exact heapReadExt _ _ _ h7
  have hrn : (copyRefST h st).1.read st.removed_due_to_net_charge
      = h.read st.removed_due_to_net_charge := by
    rw [hspec]
    exact heapReadExt _ _ _ h9
  have hrm : (copyRefST h st).1.read st.matched_pairs = h.read st.matched_pairs := by
    rw [hspec]
    exact heapReadExt _ _ _ h1
  have hbq : st.removed_pairs_with_charge_difference < ((copyRefST h st).1).length := by
    rw [hlen']
    omega
  have hbn : st.removed_due_to_net_charge < ((copyRefST h st).1).length := by
    rw [hlen']
    omega
  have hbmp : h.length + 11 < ((copyRefST h st).1).length := by
    rw [hlen']
    omega
  -- the visibility facts
  have hgA : readChargeRemovals (recordChargeRemoval (copyRefST h st).1 (copyRefST h st).2 e) st
      = readChargeRemovals (copyRefST h st).1 st ++ [e] := by
    unfold recordChargeRemoval readChargeRemovals
    rw [hsa, hrq, hqread]
    simp only []
    rw [heapReadWriteSelf _ _ _ hbq]
  have hgB : readChargeRemovals (recordChargeRemoval (copyRefST h st).1 st e) (copyRefST h st).2
      = readChargeRemovals (copyRefST h st).1 (copyRefST h st).2 ++ [e] := by
    unfold recordChargeRemoval readChargeRemovals
    rw [hsa, hrq, hqread]
    simp only []
    rw [heapReadWriteSelf _ _ _ hbq]
  have hgC : readNetChargeRemovals
        (recordNetChargeRemoval (copyRefST h st).1 (copyRefST h st).2 e) st
      = readNetChargeRemovals (copyRefST h st).1 st ++ [e] := by
    unfold recordNetChargeRemoval readNetChargeRemovals
    rw [hsc, hrn, hnread]
    simp only []
    rw [heapReadWriteSelf _ _ _ hbn]
  have hgD : readMatchedPairs (recordMatchedPair (copyRefST h st).1 (copyRefST h st).2 p)
        (copyRefST h st).2
      = readMatchedPairs (copyRefST h st).1 (copyRefST h st).2 ++ [p] := by
    unfold recordMatchedPair readMatchedPairs
    rw [hfa, hca, hmread]
    simp only []
    rw [heapReadWriteSelf _ _ _ hbmp]
  have hgE : readMatchedPairs (recordMatchedPair (copyRefST h st).1 (copyRefST h st).2 p) st
      = readMatchedPairs (copyRefST h st).1 st := by
    unfold recordMatchedPair readMatchedPairs
    rw [hfa, hca, hmread]
    simp only []
    rw [heapReadWriteOther _ _ _ _ (by omega : st.matched_pairs ≠ h.length + 11)]
  exact ⟨⟨hsa, hsb, hsc, hsd, hse⟩,
    ⟨by rw [hfa]; omega, by rw [hfb]; omega, by rw [hfc]; omega,
     by rw [hfd]; omega, by rw [hfe]; omega, by rw [hff]; omega⟩,
    ⟨by rw [hfa]; exact hca, by rw [hfb]; exact hcb, by rw [hfc]; exact hcc,
     by rw [hfd]; exact hcd, by rw [hfe]; exact hce, by rw [hff]; exact hcf⟩,
    hgA, hgB, hgC, hgD, hgE⟩

theorem C10_copy_shares_removal_logs_witness :
    (copyRefST (initRefST []).1 (initRefST []).2).2.removed_pairs_with_charge_difference
        = (initRefST []).2.removed_pairs_with_charge_difference ∧
    readMatchedPairs
        (recordMatchedPair (copyRefST (initRefST []).1 (initRefST []).2).1
          (copyRefST (initRefST []).1 (initRefST []).2).2 (0, 0))
        (initRefST []).2
      = readMatchedPairs (copyRefST (initRefST []).1 (initRefST []).2).1 (initRefST []).2 :=
  ⟨(C10_copy_shares_removal_logs (initRefST []).1 (initRefST []).2 (by decide)
      ((0, 0), (1 : ℚ)) (0, 0)).1.1,
   (C10_copy_shares_removal_logs (initRefST []).1 (initRefST []).2 (by decide)
      ((0, 0), (1 : ℚ)) (0, 0)).2.2.2.2.2.2.2⟩

/-! ## C9 — which attached pairs `remove_attached_hydrogens` removes -/

theorem pyRemove_mem_other {α : Type} [DecidableEq α] {l r : List α} {a x : α}
    (h : pyRemove l a = .ok r) (hx : x ∈ l) (hne : x ≠ a) : x ∈ r := by
  induction l generalizing r with
  | nil => cases hx
  | cons b bs ih =>
    rw [pyRemove] at h
    by_cases hb : b = a
    · rw [if_pos hb] at h
      have h2 := Except.ok.inj h
      subst h2
      cases hx with
      | head => exact absurd hb hne
      | tail _ hmem => exact hmem
    · rw [if_neg hb] at h
      cases hrec : pyRemove bs a with
      | error e => rw [hrec] at h; cases h
      | ok rest =>
        rw [hrec] at h
        have h2 := Except.ok.inj h
        subst h2
        cases hx with
        | head => exact List.mem_cons_self _ _
        | tail _ hmem => exact List.mem_cons_of_mem _ (ih hrec hmem)

theorem pyRemove_not_mem_nodup {α : Type} [DecidableEq α] {l r : List α} {a : α}
    (h : pyRemove l a = .ok r) (hnd : l.Nodup) : a ∉ r := by
  induction l generalizing r with
  | nil => rw [pyRemove] at h; cases h
  | cons b bs ih =>
    rw [pyRemove] at h
    by_cases hb : b = a
    · rw [if_pos hb] at h
      have h2 := Except.ok.inj h
      subst h2
      subst hb
      exact (List.nodup_cons.mp hnd).1
    · rw [if_neg hb] at h
      cases hrec : pyRemove bs a with
      | error e => rw [hrec] at h; cases h
      | ok rest =>
        rw [hrec] at h
        have h2 := Except.ok.inj h
        subst h2
        intro hc
        cases hc with
        | head => exact hb rfl
        | tail _ hmem => exact ih hrec (List.nodup_cons.mp hnd).2 hmem

theorem remove_node_pair_sublist (st : SupTop) (p : Pair) (st' : SupTop)
    (h : st.remove_node_pair p = .ok st') :
    st'.matched_pairs.Sublist st.matched_pairs := by
  rcases remove_node_pair_matched st p st' h with ⟨pairs, h1, h2⟩
  rw [h2]
  exact pyRemove_sublist h1

theorem remove_node_pair_mem_other (st : SupTop) (p q : Pair) (st' : SupTop)
    (h : st.remove_node_pair p = .ok st') (hq : q ∈ st.matched_pairs)
    (hne : q ≠ p) : q ∈ st'.matched_pairs := by
  rcases remove_node_pair_matched st p st' h with ⟨pairs, h1, h2⟩
  rw [h2]
  exact pyRemove_mem_other h1 hq hne

theorem remove_node_pair_not_mem (st : SupTop) (p : Pair) (st' : SupTop)
    (h : st.remove_node_pair p = .ok st') (hnd : st.matched_pairs.Nodup) :
    p ∉ st'.matched_pairs := by
  rcases remove_node_pair_matched st p st' h with ⟨pairs, h1, h2⟩
  rw [h2]
  exact pyRemove_not_mem_nodup h1 hnd

/-- The hydrogen-removal loop removes exactly the snapshot entries whose
left atom's name begins with `'H'`, and no other matched pair. -/
theorem removeHydrogensLoop_spec (ctx : Ctx) (l : List (Pair × BTPair)) :
    ∀ (cur : SupTop) (acc : List Pair) (st' : SupTop) (out : List Pair),
      removeHydrogensLoop ctx l cur acc = .ok (st', out) →
      cur.matched_pairs.Nodup →
      out = acc ++ (l.filter
          (fun pb => strBegins (ctx.lAtom pb.1.1).name "H")).map Prod.fst
      ∧ st'.matched_pairs.Sublist cur.matched_pairs
      ∧ (∀ q ∈ (l.filter
            (fun pb => strBegins (ctx.lAtom pb.1.1).name "H")).map Prod.fst,
          q ∉ st'.matched_pairs)
      ∧ (∀ q ∈ cur.matched_pairs,
          q ∉ (l.filter
            (fun pb => strBegins (ctx.lAtom pb.1.1).name "H")).map Prod.fst →
          q ∈ st'.matched_pairs) := by
  induction l with
  | nil =>
    intro cur acc st' out h hnd
    rw [removeHydrogensLoop] at h
    have h2 := Except.ok.inj h
    rw [Prod.mk.injEq] at h2
    obtain ⟨rfl, rfl⟩ := h2
    refine ⟨by simp, List.Sublist.refl _, by simp, fun q hq _ => hq⟩
  | cons pb rest ih =>
    intro cur acc st' out h hnd
    rw [removeHydrogensLoop] at h
    by_cases hH : strBegins (ctx.lAtom pb.1.1).name "H" = true
    · rw [if_neg (by simp [hH])] at h
      rcases exceptBindOkInv h with ⟨cur', hrm, h⟩
      have hnd' : cur'.matched_pairs.Nodup :=
        List.Nodup.sublist (remove_node_pair_sublist cur pb.1 cur' hrm) hnd
      obtain ⟨ho, hsub, hni, hkp⟩ := ih cur' (acc ++ [pb.1]) st' out h hnd'
      refine ⟨by simp [List.filter_cons, hH, ho], ?_, ?_, ?_⟩
      · exact hsub.trans (remove_node_pair_sublist cur pb.1 cur' hrm)
      · intro q hq
        rw [List.filter_cons, if_pos (by simp [hH])] at hq
        cases hq with
        | head =>
          intro hc
          exact remove_node_pair_not_mem cur pb.1 cur' hrm hnd (hsub.subset hc)
        | tail _ hmem => exact hni q hmem
      · intro q hq hqn
        rw [List.filter_cons, if_pos (by simp [hH])] at hqn
        have hne : q ≠ pb.1 := fun hc => hqn (by rw [hc]; exact List.mem_cons_self _ _)
        have hmem' : q ∈ cur'.matched_pairs :=
          remove_node_pair_mem_other cur pb.1 q cur' hrm hq hne
        exact hkp q hmem' (fun hc => hqn (List.mem_cons_of_mem _ hc))
    · rw [if_pos (by simp [hH])] at h
      obtain ⟨ho, hsub, hni, hkp⟩ := ih cur acc st' out h hnd
      refine ⟨by simp [List.filter_cons, hH, ho], hsub, ?_, ?_⟩
      · intro q hq
        rw [List.filter_cons, if_neg (by simp [hH])] at hq
        exact hni q hq
      · intro q hq hqn
        rw [List.filter_cons, if_neg (by simp [hH])] at hqn
        exact hkp q hq hqn

/-- **C9.**  Corrected statement: `remove_attached_hydrogens(p)` removes
exactly those pairs adjacent to `p` in `matched_pairs_bonds` whose left
atom's *name* starts with `'H'` (the source tests
`pair[0].name.startswith('H')`, not the element), and no other matched
pair is removed. -/
theorem C9_removed_iff_name_begins_H (ctx : Ctx) (st : SupTop) (p : Pair)
    (st' : SupTop) (removed : List Pair) (hnd : st.matched_pairs.Nodup)
    (h : st.remove_attached_hydrogens ctx p = .ok (st', removed)) :
    removed = (((assocFind? st.matched_pairs_bonds p).getD []).filter
        (fun pb => strBegins (ctx.lAtom pb.1.1).name "H")).map Prod.fst
    ∧ (∀ q ∈ removed, q ∉ st'.matched_pairs)
    ∧ (∀ q ∈ st.matched_pairs, q ∉ removed → q ∈ st'.matched_pairs) := by
  unfold SupTop.remove_attached_hydrogens at h
  cases hf : assocFind? st.matched_pairs_bonds p with
  | none =>
    rw [hf] at h
    have h2 := Except.ok.inj h
    rw [Prod.mk.injEq] at h2
    obtain ⟨rfl, rfl⟩ := h2
    exact ⟨by simp, by simp, fun q hq _ => hq⟩
  | some attached =>
    rw [hf] at h
    obtain ⟨ho, hsub, hni, hkp⟩ :=
      removeHydrogensLoop_spec ctx attached st [] st' removed h hnd
    refine ⟨by simpa using ho, ?_, ?_⟩
    · intro q hq
      rw [ho] at hq
      exact hni q (by simpa using hq)
    · intro q hq hqr
      refine hkp q hq (fun hc => hqr ?_)
      rw [ho]
      simpa using hc

/-- A two-atom pair of molecules whose second left atom has *element* H
(type `HC`) but a name that does not start with `'H'`. -/
def ctxC9 : Ctx :=
  { left := [atomOf "C1" "C" 0 (0, 0, 0) [(1, "1")],
             atomOf "XH1" "HC" 0 (1, 0, 0) [(0, "1")]],
    right := [atomOf "C11" "C" 0 (0, 0, 0) [(1, "1")],
              atomOf "XH11" "HC" 0 (1, 0, 0) [(0, "1")]] }

/-- The ST matching both pairs of `ctxC9`, with the bond recorded. -/
def stC9 : SupTop :=
  (do
    let s1 ← (mkSupTop ctxC9).add_node_pair ctxC9 (0, 0)
    let s2 ← s1.add_node_pair ctxC9 (1, 1)
    s2.link_with_parent (1, 1) (0, 0) (some "1", some "1")).toOption.getD (mkSupTop ctxC9)

/-- **C9, counterexample.**  The pair `(XH1, XH11)` is adjacent to
`(C1, C11)` and its left atom's element is `'H'`, yet
`remove_attached_hydrogens` removes nothing, because the source tests the
atom's *name* for the prefix `'H'`, not its element. -/
theorem C9_counterexample :
    stC9.remove_attached_hydrogens ctxC9 (0, 0) = .ok (stC9, [])
    ∧ (assocFind? stC9.matched_pairs_bonds (0, 0)).getD []
        = [((1, 1), (some "1", some "1"))]
    ∧ (ctxC9.lAtom 1).element = "H"
    ∧ (1, 1) ∈ stC9.matched_pairs := by
  refine ⟨by decide, by decide, by decide, by decide⟩

/-- As `ctxC9` but the hydrogen is conventionally named `H1`, so its name
does start with `'H'`. -/
def ctxC9b : Ctx :=
  { left := [atomOf "C1" "C" 0 (0, 0, 0) [(1, "1")],
             atomOf "H1" "HC" 0 (1, 0, 0) [(0, "1")]],
    right := [atomOf "C11" "C" 0 (0, 0, 0) [(1, "1")],
              atomOf "H11" "HC" 0 (1, 0, 0) [(0, "1")]] }

def stC9b : SupTop :=
  (do
    let s1 ← (mkSupTop ctxC9b).add_node_pair ctxC9b (0, 0)
    let s2 ← s1.add_node_pair ctxC9b (1, 1)
    s2.link_with_parent (1, 1) (0, 0) (some "1", some "1")).toOption.getD (mkSupTop ctxC9b)

def c9runB : SupTop × List Pair :=
  (stC9b.remove_attached_hydrogens ctxC9b (0, 0)).toOption.getD (stC9b, [])

theorem C9_removed_iff_name_begins_H_witness :
    stC9b.matched_pairs.Nodup ∧
    c9runB.2 = (((assocFind? stC9b.matched_pairs_bonds (0, 0)).getD []).filter
        (fun pb => strBegins (ctxC9b.lAtom pb.1.1).name "H")).map Prod.fst :=
  ⟨by decide,
   (C9_removed_iff_name_begins_H ctxC9b stC9b (0, 0) c9runB.1 c9runB.2 (by decide)
      (by decide)).1⟩

/-! ## C4 — what `refine_against_charges` removes, and the order of its log -/

theorem pyRemove_nodup_filter {α : Type} [DecidableEq α] {l r : List α} {a : α}
    (h : pyRemove l a = .ok r) (hnd : l.Nodup) :
    r = l.filter (fun x => decide ¬ x = a) := by
  induction l generalizing r with
  | nil => rw [pyRemove] at h; cases h
  | cons b bs ih =>
    rw [pyRemove] at h
    by_cases hb : b = a
    · rw [if_pos hb] at h
      have h2 := Except.ok.inj h
      subst h2
      subst hb
      rw [List.filter_cons, if_neg (by simp)]
      have hnb : b ∉ bs := (List.nodup_cons.mp hnd).1
      symm
      apply List.filter_eq_self.mpr
      intro x hx
      simp
      intro hxa
      exact hnb (hxa ▸ hx)
    · rw [if_neg hb] at h
      cases hrec : pyRemove bs a with
      | error e => rw [hrec] at h; cases h
      | ok rest =>
        rw [hrec] at h
        have h2 := Except.ok.inj h
        subst h2
        rw [List.filter_cons, if_pos (by simp [hb])]
        rw [ih hrec (List.nodup_cons.mp hnd).2]

/-- The refinement loop (with `remove_dangling_h = False`) keeps exactly
the pairs of `cur` that either are not in the remaining snapshot or pass
`AtomNode.eq`. -/
theorem refineLoop_spec (ctx : Ctx) (atol : ℚ) (l : List Pair) :
    ∀ (cur : SupTop) (st' : SupTop),
      refineLoop ctx atol false l cur = .ok st' →
      cur.matched_pairs.Nodup → l.Nodup →
      (∀ p ∈ l, p ∈ cur.matched_pairs) →
      st'.matched_pairs = cur.matched_pairs.filter
          (fun q => !(decide (q ∈ l)) || (ctx.lAtom q.1).eqA (ctx.rAtom q.2) atol) := by
  induction l with
  | nil =>
    intro cur st' h hnd hlnd hmem
    rw [refineLoop] at h
    have h2 := Except.ok.inj h
    subst h2
    symm
    apply List.filter_eq_self.mpr
    intro x hx
    simp
  | cons p rest ih =>
    intro cur st' h hnd hlnd hmem
    rw [refineLoop] at h
    by_cases he : (ctx.lAtom p.1).eqA (ctx.rAtom p.2) atol = true
    · rw [if_pos he] at h
      have hres := ih cur st' h hnd (List.nodup_cons.mp hlnd).2
        (fun q hq => hmem q (List.mem_cons_of_mem _ hq))
      rw [hres]
      apply List.filter_congr
      intro q hq
      by_cases hqp : q = p
      · subst hqp
        simp [he]
      · simp [List.mem_cons, hqp]
    · rw [if_neg he] at h
      replace h : (do
          let c ← cur.remove_node_pair p
          refineLoop ctx atol false rest
            { c with removed_pairs_with_charge_difference :=
                c.removed_pairs_with_charge_difference ++
                  [(p, |(ctx.rAtom p.2).charge - (ctx.lAtom p.1).charge|)] })
          = .ok st' := h
      rcases exceptBindOkInv h with ⟨c, hrm, h⟩
      have hcnd : c.matched_pairs.Nodup :=
        List.Nodup.sublist (remove_node_pair_sublist cur p c hrm) hnd
      have hpnr : p ∉ rest := (List.nodup_cons.mp hlnd).1
      have hres := ih
        { c with removed_pairs_with_charge_difference :=
            c.removed_pairs_with_charge_difference ++
              [(p, |(ctx.rAtom p.2).charge - (ctx.lAtom p.1).charge|)] }
        st' h hcnd (List.nodup_cons.mp hlnd).2
        (fun q hq => remove_node_pair_mem_other cur p q c hrm
          (hmem q (List.mem_cons_of_mem _ hq))
          (fun hc => hpnr (hc ▸ hq)))
      rcases remove_node_pair_matched cur p c hrm with ⟨pairs, hpy, hcm⟩
      have hcfil : c.matched_pairs = cur.matched_pairs.filter
          (fun x => decide ¬ x = p) := by
        rw [hcm]
        exact pyRemove_nodup_filter hpy hnd
      have heq : (ctx.lAtom p.1).eqA (ctx.rAtom p.2) atol = false :=
        eq_false_of_ne_true he
      rw [hres]
      simp only []
      rw [hcfil, List.filter_filter]
      apply List.filter_congr
      intro q hq
      by_cases hqp : q = p
      · subst hqp
        simp [heq]
      · simp [List.mem_cons, hqp]

/-- **C4.**  Corrected statement: for a duplicate-free `matched_pairs`,
`refine_against_charges(atol)` keeps exactly the pairs passing
`AtomNode.eq` — same force-field type *and* `np.isclose(q1, q2,
atol=atol)` (which adds the relative term `1e-5 * |q2|`) — so a pair can
be removed with `|Δq| ≤ atol` when its types differ; and on return
`_removed_pairs_with_charge_difference` is sorted by `|Δq|` in descending
order. -/
theorem C4_refine_filters_by_eq (ctx : Ctx) (st : SupTop) (atol : ℚ)
    (st' : SupTop) (hnd : st.matched_pairs.Nodup)
    (h : st.refine_against_charges ctx atol = .ok st') :
    st'.matched_pairs = st.matched_pairs.filter
        (fun p => (ctx.lAtom p.1).eqA (ctx.rAtom p.2) atol)
    ∧ st'.removed_pairs_with_charge_difference.Pairwise
        (fun x y => y.2 ≤ x.2) := by
  unfold SupTop.refine_against_charges at h
  rcases exceptBindOkInv h with ⟨cur, hloop, h⟩
  have h2 := Except.ok.inj h
  subst h2
  constructor
  · simp only []
    have hres := refineLoop_spec ctx atol st.matched_pairs.reverse st cur hloop
      hnd (List.nodup_reverse.mpr hnd) (fun p hp => List.mem_reverse.mp hp)
    rw [hres]
    apply List.filter_congr
    intro q hq
    simp [List.mem_reverse, hq]
  · simp only []
    have hp := sortByKey_pairwise (fun x y => decide (y.2 ≤ x.2))
      (fun a b => by
        rcases le_total b.2 a.2 with h1 | h1
        · exact Or.inl (by simpa using h1)
        · exact Or.inr (by simpa using h1))
      (fun a b c hab hbc => by
        simp at hab hbc ⊢
        exact le_trans hbc hab)
      cur.removed_pairs_with_charge_difference
    exact hp.imp (fun hxy => by simpa using hxy)

/-- One-atom molecules whose matched atoms carry the same charge but
different force-field types. -/
def ctxC4 : Ctx :=
  { left := [atomOf "C1" "C" 0 (0, 0, 0) []],
    right := [atomOf "N11" "N" 0 (0, 0, 0) []] }

def stC4 : SupTop :=
  ((mkSupTop ctxC4).add_node_pair ctxC4 (0, 0)).toOption.getD (mkSupTop ctxC4)

def c4run : SupTop :=
  (stC4.refine_against_charges ctxC4 (1 / 10)).toOption.getD stC4

/-- **C4, counterexample.**  The pair `(C1, N11)` has `|Δq| = 0 ≤ atol =
0.1`, so by the claimed criterion it would be kept; the code removes it
(and records it with `|Δq| = 0`) because `AtomNode.eq` also requires the
force-field types to match. -/
theorem C4_counterexample :
    stC4.refine_against_charges ctxC4 (1 / 10) = .ok c4run
    ∧ (0, 0) ∈ stC4.matched_pairs
    ∧ (ctxC4.lAtom 0).charge = (ctxC4.rAtom 0).charge
    ∧ c4run.matched_pairs = []
    ∧ c4run.removed_pairs_with_charge_difference = [((0, 0), 0)] := by
  refine ⟨by decide, by decide, by decide, by decide, by decide⟩

theorem C4_refine_filters_by_eq_witness :
    stC4.matched_pairs.Nodup ∧
    (c4run.matched_pairs = stC4.matched_pairs.filter
        (fun p => (ctxC4.lAtom p.1).eqA (ctxC4.rAtom p.2) (1 / 10))
     ∧ c4run.removed_pairs_with_charge_difference.Pairwise
        (fun x y => y.2 ≤ x.2)) :=
  ⟨by decide,
   C4_refine_filters_by_eq ctxC4 stC4 (1 / 10) c4run (by decide) (by decide)⟩

/-! ## C7 — `matched_pairs` stays sorted by the left atom's name -/

theorem charListLt_le_trans (a : List Char) : ∀ b c : List Char,
    charListLt b a = false → charListLt c b = false → charListLt c a = false := by
  induction a with
  | nil =>
    intro b c h1 h2
    cases c with
    | nil => rfl
    | cons z zs => rfl
  | cons x xs ih =>
    intro b c h1 h2
    cases b with
    | nil => rw [charListLt] at h1; cases h1
    | cons y ys =>
      cases c with
      | nil => rw [charListLt] at h2; cases h2
      | cons z zs =>
        rw [charListLt] at h1 h2 ⊢
        by_cases hyx : y.toNat < x.toNat
        · rw [if_pos hyx] at h1; cases h1
        · rw [if_neg hyx] at h1
          by_cases hzy : z.toNat < y.toNat
          · rw [if_pos hzy] at h2; cases h2
          · rw [if_neg hzy] at h2
            rw [if_neg (by omega : ¬ z.toNat < x.toNat)]
            by_cases hxz : x.toNat < z.toNat
            · rw [if_pos hxz]
            · rw [if_neg hxz]
              rw [if_neg (by omega : ¬ x.toNat < y.toNat)] at h1
              rw [if_neg (by omega : ¬ y.toNat < z.toNat)] at h2
              exact ih ys zs h1 h2

theorem charListLt_not_both (a : List Char) : ∀ b : List Char,
    charListLt a b = false ∨ charListLt b a = false := by
  induction a with
  | nil =>
    intro b
    cases b with
    | nil => exact Or.inl rfl
    | cons y ys => exact Or.inr rfl
  | cons x xs ih =>
    intro b
    cases b with
    | nil => exact Or.inl rfl
    | cons y ys =>
      by_cases hxy : x.toNat < y.toNat
      · refine Or.inr ?_
        rw [charListLt, if_neg (by omega : ¬ y.toNat < x.toNat), if_pos hxy]
      · by_cases hyx : y.toNat < x.toNat
        · refine Or.inl ?_
          rw [charListLt, if_neg hxy, if_pos hyx]
        · rcases ih ys with h | h
          · refine Or.inl ?_
            rw [charListLt, if_neg hxy, if_neg hyx]
            exact h
          · refine Or.inr ?_
            rw [charListLt, if_neg hyx, if_neg hxy]
            exact h

theorem strLeB_total (a b : String) : strLeB a b = true ∨ strLeB b a = true := by
  rcases charListLt_not_both b.data a.data with h | h
  · exact Or.inl (by simp [strLeB, h])
  · exact Or.inr (by simp [strLeB, h])

theorem strLeB_trans (a b c : String) (h1 : strLeB a b = true)
    (h2 : strLeB b c = true) : strLeB a c = true := by
  simp [strLeB] at h1 h2 ⊢
  exact charListLt_le_trans a.data b.data c.data h1 h2

theorem pairNameLe_total (ctx : Ctx) (p q : Pair) :
    pairNameLe ctx p q = true ∨ pairNameLe ctx q p = true :=
  strLeB_total _ _

theorem pairNameLe_trans (ctx : Ctx) (p q r : Pair)
    (h1 : pairNameLe ctx p q = true) (h2 : pairNameLe ctx q r = true) :
    pairNameLe ctx p r = true :=
  strLeB_trans _ _ _ h1 h2

/-- On success `add_node_pair` leaves `matched_pairs` re-sorted by the
left atom's name. -/
theorem add_node_pair_matched_sorted (ctx : Ctx) (st : SupTop) (p : Pair)
    (st' : SupTop) (h : st.add_node_pair ctx p = .ok st') :
    st'.matched_pairs = sortByKey (pairNameLe ctx) (st.matched_pairs ++ [p]) := by
  unfold SupTop.add_node_pair at h
  simp only [] at h
  by_cases h1 : (st.matched_pairs.contains p) = true
  · rw [if_pos h1] at h
    rw [exceptThrowBind] at h
    cases h
  · rw [if_neg h1] at h
    rw [exceptPureBind] at h
    by_cases h2 : (st.nodesL.contains p.1 || st.nodesR.contains p.2) = true
    · rw [if_pos h2] at h
      rw [exceptThrowBind] at h
      cases h
    · rw [if_neg h2] at h
      rw [exceptPureBind] at h
      by_cases h3 : (sortByKey (pairNameLe ctx) (st.matched_pairs ++ [p])).length * 2
          ≠ (setAdd st.nodesL p.1).length + (setAdd st.nodesR p.2).length
      · rw [if_pos h3] at h
        rw [exceptThrowBind] at h
        cases h
      · rw [if_neg h3] at h
        rw [exceptPureBind] at h
        have h4 := Except.ok.inj h
        subst h4
        rfl

theorem add_node_pair_pairwise (ctx : Ctx) (st : SupTop) (p : Pair)
    (st' : SupTop) (h : st.add_node_pair ctx p = .ok st') :
    st'.matched_pairs.Pairwise (fun a b => pairNameLe ctx a b = true) := by
  rw [add_node_pair_matched_sorted ctx st p st' h]
  exact sortByKey_pairwise (pairNameLe ctx) (pairNameLe_total ctx)
    (pairNameLe_trans ctx) _

theorem remove_node_pair_pairwise (ctx : Ctx) (st : SupTop) (p : Pair)
    (st' : SupTop) (h : st.remove_node_pair p = .ok st')
    (hp : st.matched_pairs.Pairwise (fun a b => pairNameLe ctx a b = true)) :
    st'.matched_pairs.Pairwise (fun a b => pairNameLe ctx a b = true) :=
  hp.sublist (remove_node_pair_sublist st p st' h)

theorem link_pairs_matched (st : SupTop) (f : Pair) (ps : List (Pair × BTPair))
    (st' : SupTop) (h : st.link_pairs f ps = .ok st') :
    st'.matched_pairs = st.matched_pairs := by
  unfold SupTop.link_pairs at h
  simp only [] at h
  by_cases h1 : (assocFind? st.matched_pairs_bonds f).isNone = true
  · rw [if_pos h1] at h
    rw [exceptThrowBind] at h
    cases h
  · rw [if_neg h1] at h
    rw [exceptPureBind] at h
    rcases exceptBindOkInv h with ⟨bonds, _, h⟩
    try simp only [] at h
    have h2 := Except.ok.inj h
    subst h2
    rfl

theorem link_with_parent_matched (st : SupTop) (p q : Pair) (bt : BTPair)
    (st' : SupTop) (h : st.link_with_parent p q bt = .ok st') :
    st'.matched_pairs = st.matched_pairs := by
  unfold SupTop.link_with_parent at h
  cases h1 : assocFind? st.matched_pairs_bonds p with
  | none => rw [h1] at h; try simp only [] at h
            cases h
  | some pSet =>
    rw [h1] at h
    cases h2 : assocFind? st.matched_pairs_bonds q with
    | none => rw [h2] at h; try simp only [] at h
              cases h
    | some parentSet =>
      rw [h2] at h
      try simp only [] at h
      cases h3 : assocFind? (assocSet st.matched_pairs_bonds q
          (setAdd parentSet (p, bt))) p with
      | none => rw [h3] at h; cases h
      | some pSet2 =>
        rw [h3] at h
        have h4 := Except.ok.inj h
        subst h4
        rfl

theorem mergeLinkLoop_matched (other : SupTop) (l : List Pair) :
    ∀ cur st', mergeLinkLoop other l cur = .ok st' →
      st'.matched_pairs = cur.matched_pairs := by
  induction l with
  | nil =>
    intro cur st' h
    rw [mergeLinkLoop] at h
    have h2 := Except.ok.inj h
    subst h2
    rfl
  | cons p rest ih =>
    intro cur st' h
    rw [mergeLinkLoop] at h
    cases h1 : assocFind? other.matched_pairs_bonds p with
    | none => rw [h1] at h; cases h
    | some bonded =>
      rw [h1] at h
      simp only [] at h
      by_cases h2 : bonded.length = 0
      · rw [if_pos h2] at h; cases h
      · rw [if_neg h2] at h
        rcases exceptBindOkInv h with ⟨cur', hlink, h⟩
        rw [ih cur' st' h, link_pairs_matched cur p bonded cur' hlink]

theorem mergeAddLoop_pairwise (ctx : Ctx) (l : List Pair) :
    ∀ cur acc r, mergeAddLoop ctx l cur acc = .ok r →
      cur.matched_pairs.Pairwise (fun a b => pairNameLe ctx a b = true) →
      r.1.matched_pairs.Pairwise (fun a b => pairNameLe ctx a b = true) := by
  induction l with
  | nil =>
    intro cur acc r h hp
    rw [mergeAddLoop] at h
    have h2 := Except.ok.inj h
    subst h2
    exact hp
  | cons p rest ih =>
    intro cur acc r h hp
    rw [mergeAddLoop] at h
    by_cases h1 : cur.containsP p = true
    · rw [if_neg (by simp [h1])] at h
      exact ih cur acc r h hp
    · rw [if_pos (by simp [h1])] at h
      by_cases h2 : (cur.contains_node_l p.1 || cur.contains_node_r p.2) = true
      · rw [if_pos h2] at h; cases h
      · rw [if_neg h2] at h
        rcases exceptBindOkInv h with ⟨cur', hadd, h⟩
        exact ih cur' (acc ++ [p]) r h (add_node_pair_pairwise ctx cur p cur' hadd)

theorem merge_pairwise (ctx : Ctx) (st other m : SupTop) (mp : List Pair)
    (h : st.merge ctx other = .ok (m, mp))
    (hp : st.matched_pairs.Pairwise (fun a b => pairNameLe ctx a b = true)) :
    m.matched_pairs.Pairwise (fun a b => pairNameLe ctx a b = true) := by
  unfold SupTop.merge at h
  rcases exceptBindOkInv h with ⟨r0, hml, h⟩
  obtain ⟨cur0, merged⟩ := r0
  simp only [] at h
  rcases exceptBindOkInv h with ⟨cur, hlink, h⟩
  have h2 := Except.ok.inj h
  rw [Prod.mk.injEq] at h2
  obtain ⟨h3, h4⟩ := h2
  have hm : m.matched_pairs = cur.matched_pairs := by rw [← h3]
  rw [hm, mergeLinkLoop_matched other merged cur0 cur hlink]
  exact mergeAddLoop_pairwise ctx other.matched_pairs st [] (cur0, merged) hml hp

/-- The ST states reachable by the mutations the engine performs on
`matched_pairs`: the empty ST, `add_node_pair`, `remove_node_pair`, the
two bond-linking methods and `merge`. -/
inductive STReachable (ctx : Ctx) : SupTop → Prop where
  | init : STReachable ctx (mkSupTop ctx)
  | add {st : SupTop} {p : Pair} {st' : SupTop} :
      STReachable ctx st → st.add_node_pair ctx p = .ok st' → STReachable ctx st'
  | remove {st : SupTop} {p : Pair} {st' : SupTop} :
      STReachable ctx st → st.remove_node_pair p = .ok st' → STReachable ctx st'
  | linkParent {st : SupTop} {p q : Pair} {bt : BTPair} {st' : SupTop} :
      STReachable ctx st → st.link_with_parent p q bt = .ok st' → STReachable ctx st'
  | linkPairs {st : SupTop} {p : Pair} {ps : List (Pair × BTPair)} {st' : SupTop} :
      STReachable ctx st → st.link_pairs p ps = .ok st' → STReachable ctx st'
  | merge {st other m : SupTop} {mp : List Pair} :
      STReachable ctx st → st.merge ctx other = .ok (m, mp) → STReachable ctx m

/-- **C7.**  `matched_pairs` is sorted in ascending order of the left
atom's name on every reachable ST state: `add_node_pair` re-sorts after
appending, `remove_node_pair` and `merge` preserve the ordering, and the
bond-linking methods do not touch `matched_pairs`. -/
theorem C7_matched_pairs_sorted (ctx : Ctx) (st : SupTop)
    (h : STReachable ctx st) :
    st.matched_pairs.Pairwise (fun p q => pairNameLe ctx p q = true) := by
  induction h with
  | init => simp [mkSupTop]
  | add hr hadd ih => exact add_node_pair_pairwise ctx _ _ _ hadd
  | remove hr hrm ih => exact remove_node_pair_pairwise ctx _ _ _ hrm ih
  | linkParent hr hl ih => rw [link_with_parent_matched _ _ _ _ _ hl]; exact ih
  | linkPairs hr hl ih => rw [link_pairs_matched _ _ _ _ hl]; exact ih
  | merge hr hm ih => exact merge_pairwise ctx _ _ _ _ hm ih

theorem C7_matched_pairs_sorted_witness :
    stTri2.matched_pairs.Pairwise (fun p q => pairNameLe ctxTri p q = true) :=
  C7_matched_pairs_sorted ctxTri stTri2
    (STReachable.add
      (STReachable.add STReachable.init
        (by decide : (mkSupTop ctxTri).add_node_pair ctxTri (0, 0) = .ok stTri1))
      (by decide : stTri1.add_node_pair ctxTri (1, 3) = .ok stTri2))

/-! ## C8 — macrocycles are exempt from the partial-ring filter -/

theorem get_pair_with_latom_fst (st : SupTop) (i : Nat) (q : Pair)
    (h : st.get_pair_with_latom i = some q) : q.1 = i := by
  unfold SupTop.get_pair_with_latom at h
  have h2 := List.find?_some h
  simpa using h2

theorem get_pair_with_ratom_snd (st : SupTop) (i : Nat) (q : Pair)
    (h : st.get_pair_with_ratom i = some q) : q.2 = i := by
  unfold SupTop.get_pair_with_ratom at h
  have h2 := List.find?_some h
  simpa using h2

theorem removeRingAtomsLoopL_keeps (p : Pair) (atoms : List Nat) :
    ∀ (cur : SupTop) (removed : List Pair) (r : SupTop × List Pair),
      removeRingAtomsLoopL atoms cur removed = .ok r →
      p.1 ∉ atoms → p ∈ cur.matched_pairs → p ∈ r.1.matched_pairs := by
  induction atoms with
  | nil =>
    intro cur removed r h hna hmem
    rw [removeRingAtomsLoopL] at h
    have h2 := Except.ok.inj h
    subst h2
    exact hmem
  | cons atom rest ih =>
    intro cur removed r h hna hmem
    rw [removeRingAtomsLoopL] at h
    by_cases hc : cur.contains_node_l atom = true
    · rw [if_pos hc] at h
      cases hg : cur.get_pair_with_latom atom with
      | none => rw [hg] at h; cases h
      | some q =>
        rw [hg] at h
        try simp only [] at h
        rcases exceptBindOkInv h with ⟨cur', hrm, h⟩
        have hq1 : q.1 = atom := get_pair_with_latom_fst cur atom q hg
        have hne : p ≠ q := by
          intro he
          exact hna (by rw [he, hq1]; exact List.mem_cons_self _ _)
        have hmem' : p ∈ cur'.matched_pairs :=
          remove_node_pair_mem_other cur q p cur' hrm hmem hne
        exact ih _ _ _ h (fun hc' => hna (List.mem_cons_of_mem _ hc')) hmem'
    · rw [if_neg hc] at h
      exact ih _ _ _ h (fun hc' => hna (List.mem_cons_of_mem _ hc')) hmem

theorem removeRingAtomsLoopR_keeps (p : Pair) (atoms : List Nat) :
    ∀ (cur : SupTop) (removed : List Pair) (r : SupTop × List Pair),
      removeRingAtomsLoopR atoms cur removed = .ok r →
      p.2 ∉ atoms → p ∈ cur.matched_pairs → p ∈ r.1.matched_pairs := by
  induction atoms with
  | nil =>
    intro cur removed r h hna hmem
    rw [removeRingAtomsLoopR] at h
    have h2 := Except.ok.inj h
    subst h2
    exact hmem
  | cons atom rest ih =>
    intro cur removed r h hna hmem
    rw [removeRingAtomsLoopR] at h
    by_cases hc : cur.contains_node_r atom = true
    · rw [if_pos hc] at h
      cases hg : cur.get_pair_with_ratom atom with
      | none => rw [hg] at h; cases h
      | some q =>
        rw [hg] at h
        try simp only [] at h
        rcases exceptBindOkInv h with ⟨cur', hrm, h⟩
        have hq2 : q.2 = atom := get_pair_with_ratom_snd cur atom q hg
        have hne : p ≠ q := by
          intro he
          exact hna (by rw [he, hq2]; exact List.mem_cons_self _ _)
        have hmem' : p ∈ cur'.matched_pairs :=
          remove_node_pair_mem_other cur q p cur' hrm hmem hne
        exact ih _ _ _ h (fun hc' => hna (List.mem_cons_of_mem _ hc')) hmem'
    · rw [if_neg hc] at h
      exact ih _ _ _ h (fun hc' => hna (List.mem_cons_of_mem _ hc')) hmem

theorem removeRingCirclesLoopL_keeps (p : Pair) (circles : List (List Nat)) :
    ∀ (cur : SupTop) (removed : List Pair) (r : SupTop × List Pair),
      removeRingCirclesLoopL circles cur removed = .ok r →
      (∀ c ∈ circles, p.1 ∉ c) → p ∈ cur.matched_pairs → p ∈ r.1.matched_pairs := by
  induction circles with
  | nil =>
    intro cur removed r h hna hmem
    rw [removeRingCirclesLoopL] at h
    have h2 := Except.ok.inj h
    subst h2
    exact hmem
  | cons circle rest ih =>
    intro cur removed r h hna hmem
    rw [removeRingCirclesLoopL] at h
    rcases exceptBindOkInv h with ⟨r1, h1, h⟩
    obtain ⟨cur', removed'⟩ := r1
    simp only [] at h
    exact ih cur' removed' r h (fun c hc => hna c (List.mem_cons_of_mem _ hc))
      (removeRingAtomsLoopL_keeps p circle cur removed (cur', removed') h1
        (hna circle (List.mem_cons_self _ _)) hmem)

theorem removeRingCirclesLoopR_keeps (p : Pair) (circles : List (List Nat)) :
    ∀ (cur : SupTop) (removed : List Pair) (r : SupTop × List Pair),
      removeRingCirclesLoopR circles cur removed = .ok r →
      (∀ c ∈ circles, p.2 ∉ c) → p ∈ cur.matched_pairs → p ∈ r.1.matched_pairs := by
  induction circles with
  | nil =>
    intro cur removed r h hna hmem
    rw [removeRingCirclesLoopR] at h
    have h2 := Except.ok.inj h
    subst h2
    exact hmem
  | cons circle rest ih =>
    intro cur removed r h hna hmem
    rw [removeRingCirclesLoopR] at h
    rcases exceptBindOkInv h with ⟨r1, h1, h⟩
    obtain ⟨cur', removed'⟩ := r1
    simp only [] at h
    exact ih cur' removed' r h (fun c hc => hna c (List.mem_cons_of_mem _ hc))
      (removeRingAtomsLoopR_keeps p circle cur removed (cur', removed') h1
        (hna circle (List.mem_cons_self _ _)) hmem)

theorem remove_unmatched_ring_atoms_l_keeps (p : Pair) (st : SupTop)
    (circles : List (List Nat)) (r : SupTop × List Pair)
    (h : st.remove_unmatched_ring_atoms_l circles = .ok r)
    (hna : ∀ c ∈ circles, p.1 ∉ c) (hmem : p ∈ st.matched_pairs) :
    p ∈ r.1.matched_pairs := by
  unfold SupTop.remove_unmatched_ring_atoms_l at h
  exact removeRingCirclesLoopL_keeps p circles st [] r h hna hmem

theorem remove_unmatched_ring_atoms_r_keeps (p : Pair) (st : SupTop)
    (circles : List (List Nat)) (r : SupTop × List Pair)
    (h : st.remove_unmatched_ring_atoms_r circles = .ok r)
    (hna : ∀ c ∈ circles, p.2 ∉ c) (hmem : p ∈ st.matched_pairs) :
    p ∈ r.1.matched_pairs := by
  unfold SupTop.remove_unmatched_ring_atoms_r at h
  exact removeRingCirclesLoopR_keeps p circles st [] r h hna hmem

theorem pyRemoveBy_sublist {α : Type} (eqv : α → α → Bool) :
    ∀ {l r : List α} {a : α}, pyRemoveBy eqv l a = .ok r → r.Sublist l := by
  intro l
  induction l with
  | nil => intro r a h; rw [pyRemoveBy] at h; cases h
  | cons b bs ih =>
    intro r a h
    rw [pyRemoveBy] at h
    by_cases hb : eqv b a = true
    · rw [if_pos hb] at h
      have h2 := Except.ok.inj h
      subst h2
      exact List.sublist_cons_self _ _
    · rw [if_neg hb] at h
      cases hrec : pyRemoveBy eqv bs a with
      | error e => rw [hrec] at h; cases h
      | ok rest =>
        rw [hrec] at h
        have h2 := Except.ok.inj h
        subst h2
        exact List.Sublist.cons₂ _ (ih hrec)

theorem eliminateMatchedInner_inv (st : SupTop) (lmc : List Nat)
    (P1 P2 : List Nat → Prop) :
    ∀ (rrest l_matched r_matched l_circles r_circles : List (List Nat))
      (correct : List (List Nat × List Nat))
      (lm' rm' lc' rc' : List (List Nat)) (cor' : List (List Nat × List Nat)),
      eliminateMatchedInner st lmc rrest l_matched r_matched l_circles r_circles
        correct = .ok (lm', rm', lc', rc', cor') →
      (∀ c ∈ l_circles, P1 c) → (∀ c ∈ r_circles, P2 c) →
      (∀ cc ∈ correct, P1 cc.1 ∧ P2 cc.2) →
      P1 lmc → (∀ c ∈ rrest, P2 c) →
      (∀ c ∈ lc', P1 c) ∧ (∀ c ∈ rc', P2 c) ∧ (∀ cc ∈ cor', P1 cc.1 ∧ P2 cc.2) := by
  intro rrest
  induction rrest with
  | nil =>
    intro lm rm lc rc cor lm' rm' lc' rc' cor' h h1 h2 h3 h4 h5
    rw [eliminateMatchedInner] at h
    have h0 := Except.ok.inj h
    simp only [Prod.mk.injEq] at h0
    obtain ⟨rfl, rfl, rfl, rfl, rfl⟩ := h0
    exact ⟨h1, h2, h3⟩
  | cons rmc rrest ih =>
    intro lm rm lc rc cor lm' rm' lc' rc' cor' h h1 h2 h3 h4 h5
    rw [eliminateMatchedInner] at h
    rcases exceptBindOkInv h with ⟨b, _, h⟩
    try simp only [] at h
    by_cases hb : b = true
    · rw [if_pos hb] at h
      rcases exceptBindOkInv h with ⟨lm2, _, h⟩
      try simp only [] at h
      rcases exceptBindOkInv h with ⟨rm2, _, h⟩
      try simp only [] at h
      rcases exceptBindOkInv h with ⟨lc2, hplc, h⟩
      try simp only [] at h
      rcases exceptBindOkInv h with ⟨rc2, hprc, h⟩
      try simp only [] at h
      refine ih lm2 rm2 lc2 rc2 (cor ++ [(lmc, rmc)]) lm' rm' lc' rc' cor' h
        (fun c hc => h1 c ((pyRemoveBy_sublist setEqN hplc).subset hc))
        (fun c hc => h2 c ((pyRemoveBy_sublist setEqN hprc).subset hc))
        ?_ h4 (fun c hc => h5 c (List.mem_cons_of_mem _ hc))
      intro cc hcc
      rcases List.mem_append.mp hcc with hcc | hcc
      · exact h3 cc hcc
      · have : cc = (lmc, rmc) := by simpa using hcc
        subst this
        exact ⟨h4, h5 rmc (List.mem_cons_self _ _)⟩
    · rw [if_neg hb] at h
      exact ih lm rm lc rc cor lm' rm' lc' rc' cor' h h1 h2 h3 h4
        (fun c hc => h5 c (List.mem_cons_of_mem _ hc))

theorem eliminateMatchedCircles_inv (st : SupTop) (P1 P2 : List Nat → Prop) :
    ∀ (lrest r_snapshot l_matched r_matched l_circles r_circles : List (List Nat))
      (correct : List (List Nat × List Nat))
      (lm' rm' lc' rc' : List (List Nat)) (cor' : List (List Nat × List Nat)),
      eliminateMatchedCircles st lrest r_snapshot l_matched r_matched l_circles
        r_circles correct = .ok (lm', rm', lc', rc', cor') →
      (∀ c ∈ l_circles, P1 c) → (∀ c ∈ r_circles, P2 c) →
      (∀ cc ∈ correct, P1 cc.1 ∧ P2 cc.2) →
      (∀ c ∈ lrest, P1 c) → (∀ c ∈ r_snapshot, P2 c) →
      (∀ c ∈ lc', P1 c) ∧ (∀ c ∈ rc', P2 c) ∧ (∀ cc ∈ cor', P1 cc.1 ∧ P2 cc.2) := by
  intro lrest
  induction lrest with
  | nil =>
    intro rsnap lm rm lc rc cor lm' rm' lc' rc' cor' h h1 h2 h3 h4 h5
    rw [eliminateMatchedCircles] at h
    have h0 := Except.ok.inj h
    simp only [Prod.mk.injEq] at h0
    obtain ⟨rfl, rfl, rfl, rfl, rfl⟩ := h0
    exact ⟨h1, h2, h3⟩
  | cons lmc lrest ih =>
    intro rsnap lm rm lc rc cor lm' rm' lc' rc' cor' h h1 h2 h3 h4 h5
    rw [eliminateMatchedCircles] at h
    rcases exceptBindOkInv h with ⟨mid, hmid, h⟩
    obtain ⟨lm2, rm2, lc2, rc2, cor2⟩ := mid
    simp only [] at h
    obtain ⟨g1, g2, g3⟩ := eliminateMatchedInner_inv st lmc P1 P2 rsnap lm rm lc rc
      cor lm2 rm2 lc2 rc2 cor2 hmid h1 h2 h3 (h4 lmc (List.mem_cons_self _ _)) h5
    exact ih rsnap lm2 rm2 lc2 rc2 cor2 lm' rm' lc' rc' cor' h g1 g2 g3
      (fun c hc => h4 c (List.mem_cons_of_mem _ hc)) h5

theorem enforceRingsLoop_keeps (p : Pair)
    (correct : List (List Nat × List Nat))
    (hcc : ∀ cc ∈ correct, p.1 ∉ cc.1 ∧ p.2 ∉ cc.2) :
    ∀ (fuel : Nat) (st : SupTop) (l_circles r_circles : List (List Nat))
      (st' : SupTop),
      enforceRingsLoop st correct fuel l_circles r_circles = .ok st' →
      (∀ c ∈ l_circles, p.1 ∉ c) → (∀ c ∈ r_circles, p.2 ∉ c) →
      p ∈ st.matched_pairs → p ∈ st'.matched_pairs := by
  intro fuel
  induction fuel with
  | zero => intro st lc rc st' h _ _ _; rw [enforceRingsLoop] at h; cases h
  | succ n ih =>
    intro st lc rc st' h h1 h2 hmem
    rw [enforceRingsLoop] at h
    rcases exceptBindOkInv h with ⟨r1, hL, h⟩
    obtain ⟨st1, l_removed⟩ := r1
    simp only [] at h
    rcases exceptBindOkInv h with ⟨r2, hR, h⟩
    obtain ⟨st2, r_removed⟩ := r2
    simp only [] at h
    have hm1 : p ∈ st1.matched_pairs :=
      remove_unmatched_ring_atoms_l_keeps p st lc (st1, l_removed) hL h1 hmem
    have hm2 : p ∈ st2.matched_pairs :=
      remove_unmatched_ring_atoms_r_keeps p st1 rc (st2, r_removed) hR h2 hm1
    by_cases hex : l_removed.length = 0 ∧ r_removed.length = 0
    · rw [if_pos hex] at h
      have h3 := Except.ok.inj h
      subst h3
      exact hm2
    · rw [if_neg hex] at h
      refine ih st2 _ _ st' h ?_ ?_ hm2
      · intro c hc
        rcases List.mem_append.mp hc with hc | hc
        · exact h1 c hc
        · rcases List.mem_map.mp hc with ⟨cc, hcc2, rfl⟩
          exact (hcc cc (List.mem_filter.mp hcc2).1).1
      · intro c hc
        rcases List.mem_append.mp hc with hc | hc
        · exact h2 c hc
        · rcases List.mem_map.mp hc with ⟨cc, hcc2, rfl⟩
          exact (hcc cc (List.mem_filter.mp hcc2).1).2

/-- **C8.**  `enforce_no_partial_rings` never removes a matched pair on
account of a cycle of more than 7 atoms (`MAX_CIRCLE_SIZE = 7`): if every
original or induced cycle of at most 7 atoms avoids the pair's atoms —
in particular if the pair's atoms lie only in macrocycles — the pair
survives the filter. -/
theorem C8_macrocycles_exempt (ctx : Ctx) (st : SupTop) (p : Pair)
    (st' : SupTop) (h : st.enforce_no_partial_rings ctx = .ok st')
    (hp : p ∈ st.matched_pairs)
    (hl : ∀ c ∈ originalCircles ctx.left, c.length ≤ 7 → p.1 ∉ c)
    (hr : ∀ c ∈ originalCircles ctx.right, c.length ≤ 7 → p.2 ∉ c)
    (hml : ∀ c ∈ (st.get_circles ctx).1, c.length ≤ 7 → p.1 ∉ c)
    (hmr : ∀ c ∈ (st.get_circles ctx).2, c.length ≤ 7 → p.2 ∉ c) :
    p ∈ st'.matched_pairs := by
  unfold SupTop.enforce_no_partial_rings at h
  unfold SupTop.enforce_no_partial_rings_core at h
  simp only [] at h
  rcases exceptBindOkInv h with ⟨out, helim, h⟩
  obtain ⟨lm, rm, lcir, rcir, cor⟩ := out
  simp only [] at h
  have hfl : ∀ c ∈ (originalCircles ctx.left).filter (fun c => c.length ≤ 7),
      p.1 ∉ c := by
    intro c hc
    have hc2 := List.mem_filter.mp hc
    exact hl c hc2.1 (by simpa using hc2.2)
  have hfr : ∀ c ∈ (originalCircles ctx.right).filter (fun c => c.length ≤ 7),
      p.2 ∉ c := by
    intro c hc
    have hc2 := List.mem_filter.mp hc
    exact hr c hc2.1 (by simpa using hc2.2)
  have hfml : ∀ c ∈ ((st.get_circles ctx).1.filter
      (fun c => c.length ≤ 7)).reverse, p.1 ∉ c := by
    intro c hc
    have hc2 := List.mem_filter.mp (List.mem_reverse.mp hc)
    exact hml c hc2.1 (by simpa using hc2.2)
  have hfmr : ∀ c ∈ ((st.get_circles ctx).2.filter
      (fun c => c.length ≤ 7)).reverse, p.2 ∉ c := by
    intro c hc
    have hc2 := List.mem_filter.mp (List.mem_reverse.mp hc)
    exact hmr c hc2.1 (by simpa using hc2.2)
  obtain ⟨g1, g2, g3⟩ := eliminateMatchedCircles_inv st (fun c => p.1 ∉ c)
    (fun c => p.2 ∉ c) _ _ _ _ _ _ _ lm rm lcir rcir cor helim hfl hfr
    (by intro cc hcc; cases hcc) hfml hfmr
  by_cases hg : ¬ (lm.length = 0 ∧ rm.length = 0)
  · rw [if_pos hg] at h
    rw [exceptThrowBind] at h
    cases h
  · rw [if_neg hg] at h
    rw [exceptPureBind] at h
    exact enforceRingsLoop_keeps p cor g3 (st.size + 1) st lcir rcir st' h g1 g2 hp

/-- Two 8-membered carbon rings (macrocycles: longer than
`MAX_CIRCLE_SIZE = 7`). -/
def ctxC8 : Ctx :=
  { left := [atomOf "C1" "C" 0 (0, 0, 0) [(7, "1"), (1, "1")],
             atomOf "C2" "C" 0 (1, 0, 0) [(0, "1"), (2, "1")],
             atomOf "C3" "C" 0 (2, 0, 0) [(1, "1"), (3, "1")],
             atomOf "C4" "C" 0 (3, 0, 0) [(2, "1"), (4, "1")],
             atomOf "C5" "C" 0 (3, 1, 0) [(3, "1"), (5, "1")],
             atomOf "C6" "C" 0 (2, 1, 0) [(4, "1"), (6, "1")],
             atomOf "C7" "C" 0 (1, 1, 0) [(5, "1"), (7, "1")],
             atomOf "C8" "C" 0 (0, 1, 0) [(6, "1"), (0, "1")]],
    right := [atomOf "D1" "C" 0 (0, 0, 0) [(7, "1"), (1, "1")],
              atomOf "D2" "C" 0 (1, 0, 0) [(0, "1"), (2, "1")],
              atomOf "D3" "C" 0 (2, 0, 0) [(1, "1"), (3, "1")],
              atomOf "D4" "C" 0 (3, 0, 0) [(2, "1"), (4, "1")],
              atomOf "D5" "C" 0 (3, 1, 0) [(3, "1"), (5, "1")],
              atomOf "D6" "C" 0 (2, 1, 0) [(4, "1"), (6, "1")],
              atomOf "D7" "C" 0 (1, 1, 0) [(5, "1"), (7, "1")],
              atomOf "D8" "C" 0 (0, 1, 0) [(6, "1"), (0, "1")]] }

/-- The ST matching the two 8-rings atom by atom. -/
def stC8 : SupTop :=
  (List.range 8).foldl (fun acc i =>
    (acc.add_node_pair ctxC8 (i, i)).toOption.getD acc) (mkSupTop ctxC8)

def c8run : SupTop :=
  (stC8.enforce_no_partial_rings ctxC8).toOption.getD stC8

theorem C8_macrocycles_exempt_witness :
    stC8.enforce_no_partial_rings ctxC8 = .ok c8run
    ∧ (0, 0) ∈ c8run.matched_pairs :=
  ⟨by decide,
   C8_macrocycles_exempt ctxC8 stC8 (0, 0) c8run (by decide) (by decide)
     (by decide) (by decide) (by decide) (by decide)⟩
